import Mathlib

/-!
# FlipFlop core: a shallow embedding in Lean 4

This file embeds the core data model and operations of the FlipFlop
circuit editor/simulator (a Rust program) and proves properties of the
embedded operations.  Each definition is a direct translation of the
corresponding Rust item; comments name the source file.

Conventions of the translation:
* `u32`/`usize` indices become `Nat`; `i32` coordinates become `Int`.
* `Vec<T>` becomes `List T` (push appends at the end, pop takes the last).
* `HashMap<K, V>` becomes an association list `List (K × V)`; the source
  only iterates maps with order-independent folds (`any`), so the list
  order is immaterial.
* Rust panics (`unwrap`, `assert!`, depot lookups on dead handles,
  `unreachable!`) cannot return; where a caller can only reach them
  through an internal bug, the embedding either returns `Option`
  (`none` = panic) or leaves the state unchanged on the impossible
  branch; each site is commented.
* GPU sprite bookkeeping (renderer handles) is out of the embedded core;
  the only sprite datum with program-visible structure, the crossover
  sprite of a tile, is kept as a `Bool` (present / absent).
-/

namespace FlipFlop

/-! ## Direction and Relative (src/direction.rs) -/

inductive Direction where
  | East
  | North
  | West
  | South
deriving DecidableEq, Repr

inductive Relative where
  | Same
  | Opposite
  | Right
  | Left
deriving DecidableEq, Repr

/-- `Direction::rotate` (src/direction.rs). -/
def Direction.rotate : Direction → Relative → Direction
  | .East, .Same => .East
  | .North, .Same => .North
  | .West, .Same => .West
  | .South, .Same => .South
  | .East, .Opposite => .West
  | .North, .Opposite => .South
  | .West, .Opposite => .East
  | .South, .Opposite => .North
  | .East, .Right => .South
  | .North, .Right => .East
  | .West, .Right => .North
  | .South, .Right => .West
  | .East, .Left => .North
  | .North, .Left => .West
  | .West, .Left => .South
  | .South, .Left => .East

/-- `Direction::to` (src/direction.rs). -/
def Direction.to : Direction → Direction → Relative
  | .East, .East => .Same
  | .North, .North => .Same
  | .West, .West => .Same
  | .South, .South => .Same
  | .East, .West => .Opposite
  | .North, .South => .Opposite
  | .West, .East => .Opposite
  | .South, .North => .Opposite
  | .East, .South => .Right
  | .North, .East => .Right
  | .West, .North => .Right
  | .South, .West => .Right
  | .East, .North => .Left
  | .North, .West => .Left
  | .West, .South => .Left
  | .South, .East => .Left

/-- Modelled from the spec: `Direction::opposite` is called throughout
src/circuit.rs but its definition is not among the files under src/;
the spec (§4.1) describes `opposite` as a constant of the 4-way
orientation algebra, composing with `rotate`. -/
def Direction.opposite (d : Direction) : Direction := d.rotate .Opposite

/-- Modelled from the spec: `Direction::left`, missing from src/ (see
`Direction.opposite`); the spec (§4.1) lists `left` as a constant of the
rotation algebra. -/
def Direction.left (d : Direction) : Direction := d.rotate .Left

/-- Modelled from the spec: `Direction::right`, missing from src/ (see
`Direction.opposite`); the spec (§4.1) lists `right` as a constant of the
rotation algebra. -/
def Direction.right (d : Direction) : Direction := d.rotate .Right

/-! ## Integer 2-vectors (glam::IVec2 as used by src/circuit.rs) -/

structure IVec2 where
  x : Int
  y : Int
deriving DecidableEq, Repr

def IVec2.add (a b : IVec2) : IVec2 := ⟨a.x + b.x, a.y + b.y⟩

def IVec2.sub (a b : IVec2) : IVec2 := ⟨a.x - b.x, a.y - b.y⟩

def IVec2.smul (a : IVec2) (k : Int) : IVec2 := ⟨a.x * k, a.y * k⟩

/-- Componentwise clamp, as `glam::IVec2::clamp (splat (-1)) (splat 1)`
is used in `wire_tiles` (src/circuit.rs). -/
def IVec2.clampUnit (a : IVec2) : IVec2 :=
  ⟨max (-1) (min 1 a.x), max (-1) (min 1 a.y)⟩

/-- The `<[i32; 2]>::from(start) > <[i32; 2]>::from(end)` comparison of
`Circuit::insert_wire` (src/circuit.rs): lexicographic on `[x, y]`. -/
def IVec2.arrGt (a b : IVec2) : Bool :=
  a.x > b.x || (a.x = b.x && a.y > b.y)

/-- `wire_direction` (src/circuit.rs). -/
def wireDirection (s e : IVec2) : Direction :=
  if s.x = e.x then
    if s.y < e.y then .North else .South
  else
    if s.x < e.x then .East else .West

/-- `wire_tiles` (src/circuit.rs): the tiles of the segment from `s`
to `e`, in order. -/
def wireTiles (s e : IVec2) : List IVec2 :=
  let delta := e.sub s
  let ray := delta.clampUnit
  let len := delta.x.natAbs + delta.y.natAbs
  (List.range (len + 1)).map (fun i : Nat => s.add (ray.smul (i : Int)))

/-! ## Multi-sets as association lists (HashMap<u32, u32> of
src/simulation.rs) -/

/-- Key lookup in a count map. -/
def msGet (m : List (Nat × Nat)) (k : Nat) : Option Nat :=
  (m.find? (fun p => p.1 = k)).map (fun p => p.2)

/-- `*map.entry(k).or_insert(0) += 1` (src/simulation.rs `add_flip` /
`add_flop`). -/
def msIncr (m : List (Nat × Nat)) (k : Nat) : List (Nat × Nat) :=
  if (m.find? (fun p => p.1 = k)).isSome then
    m.map (fun p => if p.1 = k then (p.1, p.2 + 1) else p)
  else
    m ++ [(k, 1)]

/-- Decrement and erase at zero (src/simulation.rs `remove_flip` /
`remove_flop`).  The source `unwrap`s when the key is absent (a panic);
the embedding leaves the map unchanged on that unreachable branch. -/
def msDecr (m : List (Nat × Nat)) (k : Nat) : List (Nat × Nat) :=
  match msGet m k with
  | none => m
  | some c =>
    if c - 1 = 0 then
      m.filter (fun p => p.1 ≠ k)
    else
      m.map (fun p => if p.1 = k then (p.1, p.2 - 1) else p)

/-! ## Simulation (src/simulation.rs) -/

structure Simulation where
  num_clusters : Nat
  free_clusters : List Nat
  is_powered : List Bool
  was_powered : List Bool
  flips : List (List (Nat × Nat))
  flops : List (List (Nat × Nat))
  manual_power : List Nat
deriving DecidableEq, Repr

namespace Simulation

/-- `Simulation::new`. -/
def new : Simulation :=
  { num_clusters := 0
    free_clusters := []
    is_powered := []
    was_powered := []
    flips := []
    flops := []
    manual_power := [] }

/-- `Simulation::alloc_cluster`: pop the free-list (Vec pop = last
element) or grow every array by one. -/
def alloc_cluster (s : Simulation) : Nat × Simulation :=
  match s.free_clusters.getLast? with
  | some id => (id, { s with free_clusters := s.free_clusters.dropLast })
  | none =>
    let id := s.num_clusters
    (id,
      { s with
        num_clusters := s.num_clusters + 1
        is_powered := s.is_powered ++ [false]
        was_powered := s.was_powered ++ [false]
        flips := s.flips ++ [[]]
        flops := s.flops ++ [[]]
        manual_power := s.manual_power ++ [0] })

/-- `Simulation::free_cluster`: push onto the free-list.  The source
asserts that `flips[id]` and `flops[id]` are empty and
`manual_power[id] == 0` (panic otherwise); the asserts are elided here
and appear as hypotheses where a theorem needs them. -/
def free_cluster (s : Simulation) (id : Nat) : Simulation :=
  { s with free_clusters := s.free_clusters ++ [id] }

/-- `Simulation::add_flip`. -/
def add_flip (s : Simulation) (inp out : Nat) : Simulation :=
  { s with flips := s.flips.modify (fun m => msIncr m inp) out }

/-- `Simulation::add_flop`. -/
def add_flop (s : Simulation) (inp out : Nat) : Simulation :=
  { s with flops := s.flops.modify (fun m => msIncr m inp) out }

/-- `Simulation::remove_flip`. -/
def remove_flip (s : Simulation) (inp out : Nat) : Simulation :=
  { s with flips := s.flips.modify (fun m => msDecr m inp) out }

/-- `Simulation::remove_flop`. -/
def remove_flop (s : Simulation) (inp out : Nat) : Simulation :=
  { s with flops := s.flops.modify (fun m => msDecr m inp) out }

/-- `Simulation::power`. -/
def power (s : Simulation) (id : Nat) : Simulation :=
  { s with manual_power := s.manual_power.modify (fun c => c + 1) id }

/-- `Simulation::unpower`. -/
def unpower (s : Simulation) (id : Nat) : Simulation :=
  { s with manual_power := s.manual_power.modify (fun c => c - 1) id }

/-- `Simulation::is_powered` (read accessor; out-of-range is a panic in
the source, `false` here). -/
def isPowered (s : Simulation) (id : Nat) : Bool :=
  s.is_powered.getD id false

/-- `Simulation::was_powered`. -/
def wasPowered (s : Simulation) (id : Nat) : Bool :=
  s.was_powered.getD id false

/-- `Simulation::set_powered`. -/
def set_powered (s : Simulation) (id : Nat) (powered : Bool) : Simulation :=
  { s with is_powered := s.is_powered.set id powered }

/-- The per-cluster formula computed by the loop body of
`Simulation::tick`, reading the post-swap `was_powered` array. -/
def tickCell (s : Simulation) (was : List Bool) (i : Nat) : Bool :=
  decide (s.manual_power.getD i 0 > 0)
    || (s.flips.getD i []).any (fun p => !(was.getD p.1 false))
    || (s.flops.getD i []).any (fun p => was.getD p.1 false)

/-- `Simulation::tick`: swap `is_powered` and `was_powered`, then
overwrite `is_powered[i]` for every `i < num_clusters`.  The loop only
reads `was_powered`, `flips`, `flops` and `manual_power`, none of which
it writes, so it is the fold of independent index writes below. -/
def tick (s : Simulation) : Simulation :=
  let was := s.is_powered
  { s with
    was_powered := was
    is_powered :=
      (List.range s.num_clusters).foldl
        (fun arr i => arr.set i (tickCell s was i)) s.was_powered }

/-- `n` successive calls of `tick`. -/
def tickN : Nat → Simulation → Simulation
  | 0, s => s
  | n + 1, s => (tickN n s).tick

/-- All parallel arrays have length `num_clusters` — maintained by every
constructor/mutator of the source. -/
def WF (s : Simulation) : Prop :=
  s.is_powered.length = s.num_clusters ∧
  s.was_powered.length = s.num_clusters ∧
  s.flips.length = s.num_clusters ∧
  s.flops.length = s.num_clusters ∧
  s.manual_power.length = s.num_clusters

instance (s : Simulation) : Decidable (WF s) := by
  unfold WF; infer_instance

/-- Ids on the free-list satisfy the `free_cluster` asserts of the
source: empty flip/flop multi-sets and no manual power. -/
def FreeListOK (s : Simulation) : Prop :=
  ∀ id ∈ s.free_clusters,
    s.flips.getD id [] = [] ∧ s.flops.getD id [] = [] ∧
    s.manual_power.getD id 0 = 0

instance (s : Simulation) : Decidable (FreeListOK s) := by
  unfold FreeListOK; infer_instance

end Simulation

/-! ## Helper lemmas on list folds of index writes -/

lemma getD_set_self (l : List Bool) (i : Nat) (v : Bool) :
    (l.set i v).getD i false = if i < l.length then v else false := by
  by_cases h : i < l.length
  · simp [List.getD, List.getElem?_set_self, h,
      List.getElem?_eq_getElem, List.getElem_set_self]
  · simp [List.getD, List.getElem?_eq_none_iff.2, h, List.set_eq_of_length_le,
      Nat.le_of_not_lt h]

lemma getD_set_ne (l : List Bool) (i j : Nat) (v : Bool) (h : i ≠ j) :
    (l.set i v).getD j false = l.getD j false := by
  simp [List.getD, List.getElem?_set_ne h]

lemma foldl_set_length (f : Nat → Bool) (l : List Nat) (arr : List Bool) :
    (l.foldl (fun a i => a.set i (f i)) arr).length = arr.length := by
  induction l generalizing arr with
  | nil => rfl
  | cons x xs ih => simp [List.foldl_cons, ih]

/-- The `tick` loop as a fold of index writes: pointwise description. -/
lemma foldl_set_range_getD (f : Nat → Bool) (arr : List Bool) (n c : Nat) :
    ((List.range n).foldl (fun a i => a.set i (f i)) arr).getD c false =
      if c < n ∧ c < arr.length then f c else arr.getD c false := by
  induction n with
  | zero => simp
  | succ m ih =>
    rw [List.range_succ, List.foldl_append]
    simp only [List.foldl_cons, List.foldl_nil]
    by_cases hc : c = m
    · subst hc
      rw [getD_set_self, foldl_set_length]
      by_cases h2 : c < arr.length
      · simp [h2, Nat.lt_irrefl]
      · have hnone : arr[c]? = none :=
          List.getElem?_eq_none_iff.2 (Nat.le_of_not_lt h2)
        simp [h2, Nat.lt_irrefl, List.getD, hnone]
    · rw [getD_set_ne _ _ _ _ (fun h => hc h.symm), ih]
      by_cases h1 : c < m
      · have : c < m + 1 := by omega
        simp [h1, this]
      · have : ¬ c < m + 1 := by omega
        simp [h1, this]

lemma getD_append_self {α : Type} (l : List α) (a d : α) :
    (l ++ [a]).getD l.length d = a := by
  simp [List.getD, List.getElem?_append_right (Nat.le_refl l.length)]

/-! ## The feedback-flip scenario (tests::feedback_flip,
src/simulation.rs): one cluster with a flip from itself to itself. -/

/-- The state built by `Simulation::new()`, `alloc_cluster()`,
`add_flip(c, c)` with `c` the returned id. -/
def simFeedback : Simulation :=
  let r := Simulation.new.alloc_cluster
  r.2.add_flip r.1 r.1

/-- The feedback state on odd ticks. -/
def simFeedbackOdd : Simulation :=
  { num_clusters := 1, free_clusters := [], is_powered := [true],
    was_powered := [false], flips := [[(0, 1)]], flops := [[]],
    manual_power := [0] }

/-- The feedback state on (positive) even ticks. -/
def simFeedbackEven : Simulation :=
  { num_clusters := 1, free_clusters := [], is_powered := [false],
    was_powered := [true], flips := [[(0, 1)]], flops := [[]],
    manual_power := [0] }

lemma simFeedback_tick : simFeedback.tick = simFeedbackOdd := by decide

lemma simFeedbackOdd_tick : simFeedbackOdd.tick = simFeedbackEven := by decide

lemma simFeedbackEven_tick : simFeedbackEven.tick = simFeedbackOdd := by decide

lemma tickN_simFeedback (n : Nat) :
    Simulation.tickN (n + 1) simFeedback =
      if (n + 1) % 2 = 1 then simFeedbackOdd else simFeedbackEven := by
  induction n with
  | zero =>
    simp [Simulation.tickN, simFeedback_tick]
  | succ m ih =>
    show (Simulation.tickN (m + 1) simFeedback).tick = _
    rw [ih]
    rcases Nat.even_or_odd (m + 1) with he | ho
    · have h1 : (m + 1) % 2 = 0 := Nat.even_iff.1 he
      have h2 : (m + 2) % 2 = 1 := by omega
      simp [h1, h2, simFeedbackEven_tick]
    · have h1 : (m + 1) % 2 = 1 := Nat.odd_iff.1 ho
      have h2 : (m + 2) % 2 = 0 := by omega
      simp [h1, h2, simFeedbackOdd_tick]

/-! ## Claim theorems about the Simulation -/

/-- C1: for every well-formed `Simulation` and live cluster `c`, after
`tick()` the new `is_powered[c]` holds exactly when `manual_power[c] > 0`,
or some source in `flips_in[c]` was unpowered in the old `is_powered`
array, or some source in `flops_in[c]` was powered there; moreover the
old `is_powered` array becomes `was_powered` after the swap. -/
theorem tick_live_cluster_formula (s : Simulation) (c : Nat)
    (hwf : s.WF) (hc : c < s.num_clusters) (_hlive : c ∉ s.free_clusters) :
    (s.tick.isPowered c = true ↔
      (s.manual_power.getD c 0 > 0 ∨
        (∃ p ∈ s.flips.getD c [], s.isPowered p.1 = false) ∨
        (∃ p ∈ s.flops.getD c [], s.isPowered p.1 = true))) ∧
    s.tick.was_powered = s.is_powered := by
  refine ⟨?_, rfl⟩
  have harr : c < s.was_powered.length := by rw [hwf.2.1]; exact hc
  show (((List.range s.num_clusters).foldl
      (fun arr i => arr.set i (s.tickCell s.is_powered i))
      s.was_powered).getD c false = true) ↔ _
  rw [foldl_set_range_getD, if_pos ⟨hc, harr⟩]
  unfold Simulation.tickCell
  simp only [Bool.or_eq_true, List.any_eq_true, decide_eq_true_iff,
    Bool.not_eq_true', Simulation.isPowered]
  exact or_assoc

/-- C1 witness: the formula instantiated on the concrete feedback-flip
simulation at cluster 0. -/
theorem tick_live_cluster_formula_witness :
    simFeedback.WF ∧ 0 < simFeedback.num_clusters ∧
    ((simFeedback.tick.isPowered 0 = true ↔
      (simFeedback.manual_power.getD 0 0 > 0 ∨
        (∃ p ∈ simFeedback.flips.getD 0 [], simFeedback.isPowered p.1 = false) ∨
        (∃ p ∈ simFeedback.flops.getD 0 [], simFeedback.isPowered p.1 = true))) ∧
      simFeedback.tick.was_powered = simFeedback.is_powered) :=
  ⟨by decide, by decide,
    tick_live_cluster_formula simFeedback 0 (by decide) (by decide) (by decide)⟩

/-- C8: in the feedback-flip scenario (`alloc_cluster` then
`add_flip(c, c)` on a fresh simulation, cluster initially unpowered, no
manual power), after `n` ticks the cluster is powered exactly when `n`
is odd: a period-2 oscillation, indefinitely. -/
theorem feedback_flip_oscillates (n : Nat) :
    (Simulation.tickN n simFeedback).isPowered 0 = decide (n % 2 = 1) := by
  cases n with
  | zero => decide
  | succ m =>
    rw [tickN_simFeedback m]
    rcases Nat.even_or_odd (m + 1) with he | ho
    · have h1 : (m + 1) % 2 = 0 := Nat.even_iff.1 he
      simp [h1, simFeedbackEven, Simulation.isPowered]
    · have h1 : (m + 1) % 2 = 1 := Nat.odd_iff.1 ho
      simp [h1, simFeedbackOdd, Simulation.isPowered]

/-- C10: `tick` writes only the two power arrays; the flip and flop
connection multi-sets, the manual-power array, the cluster count and the
free-list are untouched. -/
theorem tick_frame_only_power_arrays (s : Simulation) :
    s.tick.flips = s.flips ∧ s.tick.flops = s.flops ∧
    s.tick.manual_power = s.manual_power ∧
    s.tick.num_clusters = s.num_clusters ∧
    s.tick.free_clusters = s.free_clusters :=
  ⟨rfl, rfl, rfl, rfl, rfl⟩

/-- C4 counterexample: allocate a cluster, force `is_powered` with
`set_powered` (as the cluster-merge path of the source does), free it,
and allocate again: the popped id 0 comes back with `is_powered = true`,
not the default `false`. -/
theorem alloc_cluster_stale_power_cex :
    (let s3 := (((Simulation.new.alloc_cluster).2.set_powered 0 true).free_cluster 0)
     (s3.alloc_cluster).1 = 0 ∧ (s3.alloc_cluster).2.isPowered 0 = true) := by
  decide

/-- C4 amended: every id returned by `alloc_cluster` has empty
`flips_in`/`flops_in` and zero `manual_power` (for a reused id this is
exactly what `free_cluster`'s asserts guaranteed at free time); a
freshly grown id additionally has `is_powered` and `was_powered` at
their default `false`, but a reused id may retain stale power flags. -/
theorem alloc_cluster_fields_amended (s : Simulation)
    (hwf : s.WF) (hfree : s.FreeListOK) :
    ((s.alloc_cluster).2.flips.getD (s.alloc_cluster).1 [] = [] ∧
      (s.alloc_cluster).2.flops.getD (s.alloc_cluster).1 [] = [] ∧
      (s.alloc_cluster).2.manual_power.getD (s.alloc_cluster).1 0 = 0) ∧
    (s.free_clusters = [] →
      (s.alloc_cluster).2.isPowered (s.alloc_cluster).1 = false ∧
      (s.alloc_cluster).2.wasPowered (s.alloc_cluster).1 = false ∧
      (s.alloc_cluster).1 = s.num_clusters) := by
  unfold Simulation.alloc_cluster
  rcases hlast : s.free_clusters.getLast? with _ | id
  · have hnil : s.free_clusters = [] := by
      cases hfc : s.free_clusters with
      | nil => rfl
      | cons a l => rw [hfc] at hlast; simp [List.getLast?_concat] at hlast
    simp only [hnil]
    refine ⟨⟨?_, ?_, ?_⟩, fun _ => ⟨?_, ?_, by trivial⟩⟩
    · rw [show s.num_clusters = s.flips.length from hwf.2.2.1.symm]
      exact getD_append_self _ _ _
    · rw [show s.num_clusters = s.flops.length from hwf.2.2.2.1.symm]
      exact getD_append_self _ _ _
    · rw [show s.num_clusters = s.manual_power.length from hwf.2.2.2.2.symm]
      exact getD_append_self _ _ _
    · show (s.is_powered ++ [false]).getD s.num_clusters false = false
      rw [show s.num_clusters = s.is_powered.length from hwf.1.symm]
      exact getD_append_self _ _ _
    · show (s.was_powered ++ [false]).getD s.num_clusters false = false
      rw [show s.num_clusters = s.was_powered.length from hwf.2.1.symm]
      exact getD_append_self _ _ _
  · have hmem : id ∈ s.free_clusters := by
      obtain ⟨hne, heq⟩ :=
        List.mem_getLast?_eq_getLast (l := s.free_clusters) (x := id)
          (by rw [hlast]; rfl)
      rw [heq]
      exact List.getLast_mem hne
    refine ⟨(hfree id hmem), fun hnil => ?_⟩
    rw [hnil] at hlast; simp at hlast

/-- C4 amended witness: the amended statement instantiated on the
concrete state of the counterexample (free-list `[0]`). -/
theorem alloc_cluster_fields_amended_witness :
    (let s3 := (((Simulation.new.alloc_cluster).2.set_powered 0 true).free_cluster 0)
     s3.WF ∧ s3.FreeListOK ∧
     (((s3.alloc_cluster).2.flips.getD (s3.alloc_cluster).1 [] = [] ∧
       (s3.alloc_cluster).2.flops.getD (s3.alloc_cluster).1 [] = [] ∧
       (s3.alloc_cluster).2.manual_power.getD (s3.alloc_cluster).1 0 = 0) ∧
      (s3.free_clusters = [] →
        (s3.alloc_cluster).2.isPowered (s3.alloc_cluster).1 = false ∧
        (s3.alloc_cluster).2.wasPowered (s3.alloc_cluster).1 = false ∧
        (s3.alloc_cluster).1 = s3.num_clusters))) :=
  ⟨by decide, by decide,
    alloc_cluster_fields_amended _ (by decide) (by decide)⟩

/-! ## InstanceManager (src/instance.rs)

The GPU-buffer fields (`gfx`, `buffer`, `buffer_capacity`) are device
state outside the embedded core; the index structures and the dirty
flag are kept.  The instance payload type is a parameter. -/

/-- Association-list lookup for `HashMap<u64, usize>`. -/
def assocGet (m : List (Nat × Nat)) (k : Nat) : Option Nat :=
  (m.find? (fun p => p.1 = k)).map (fun p => p.2)

/-- `HashMap::insert` (replace or append). -/
def assocSet (m : List (Nat × Nat)) (k v : Nat) : List (Nat × Nat) :=
  if (m.find? (fun p => p.1 = k)).isSome then
    m.map (fun p => if p.1 = k then (k, v) else p)
  else
    m ++ [(k, v)]

/-- `HashMap::remove` (drop the key). -/
def assocRemove (m : List (Nat × Nat)) (k : Nat) : List (Nat × Nat) :=
  m.filter (fun p => p.1 ≠ k)

/-- `Vec::swap_remove(i)`: replace element `i` with the last element and
pop.  The source panics when `i` is out of bounds; callers below only use
in-bounds indices. -/
def swapRemove {α : Type} (l : List α) (i : Nat) : List α :=
  match l.getLast? with
  | none => l
  | some a => (l.set i a).dropLast

structure InstanceManager (T : Type) where
  instances : List T
  instance_to_handle : List Nat
  handle_to_instance : List (Nat × Nat)
  buffer_update : Bool

/-- `Update<T>` messages carried by the manager's channel. -/
inductive IMUpdate (T : Type) where
  | set (handle : Nat) (inst : T)
  | remove (handle : Nat)

namespace InstanceManager

/-- `InstanceManager::set` (src/instance.rs): update in place if the
handle is present, else append and record both mappings. -/
def set {T : Type} (m : InstanceManager T) (handle : Nat) (inst : T) :
    InstanceManager T :=
  match assocGet m.handle_to_instance handle with
  | some index =>
    { m with buffer_update := true, instances := m.instances.set index inst }
  | none =>
    { m with
      buffer_update := true
      instances := m.instances ++ [inst]
      instance_to_handle := m.instance_to_handle ++ [handle]
      handle_to_instance :=
        assocSet m.handle_to_instance handle m.instances.length }

/-- `InstanceManager::remove` (src/instance.rs): the source `unwrap`s
the map lookup — a panic when the handle is absent, modelled as `none`.
On success it swap-removes the slot and rewrites the moved entry's
handle→index mapping. -/
def remove {T : Type} (m : InstanceManager T) (handle : Nat) :
    Option (InstanceManager T) :=
  match assocGet m.handle_to_instance handle with
  | none => none
  | some index =>
    let m1 : InstanceManager T :=
      { m with
        buffer_update := true
        handle_to_instance := assocRemove m.handle_to_instance handle
        instances := swapRemove m.instances index
        instance_to_handle := swapRemove m.instance_to_handle index }
    -- debug_assert!(removed_handle == handle) elided.
    if index ≠ m1.instances.length then
      match m1.instance_to_handle.get? index with
      | some affected =>
        some { m1 with
          handle_to_instance := assocSet m1.handle_to_instance affected index }
      | none => some m1
    else
      some m1

/-- `InstanceManager::handle_updates`: FIFO drain of the channel,
propagating a panic from `remove`. -/
def handle_updates {T : Type} :
    List (IMUpdate T) → InstanceManager T → Option (InstanceManager T)
  | [], m => some m
  | IMUpdate.set h v :: rest, m => handle_updates rest (m.set h v)
  | IMUpdate.remove h :: rest, m =>
    match m.remove h with
    | none => none
    | some m1 => handle_updates rest m1

end InstanceManager

/-- The empty instance manager (payload `Nat` for concreteness). -/
def imEmpty : InstanceManager Nat :=
  { instances := [], instance_to_handle := [], handle_to_instance := [],
    buffer_update := false }

/-- C9 counterexample: on the (drained) empty manager, a `Remove` for
handle 0 — which is not in the handle-to-index map — is not a no-op: the
source `unwrap`s a `None` lookup and panics. -/
theorem remove_unknown_handle_cex :
    imEmpty.remove 0 = none ∧ imEmpty.remove 0 ≠ some imEmpty := by
  constructor
  · rfl
  · intro h
    simp [InstanceManager.remove, assocGet, imEmpty] at h

/-- C9 amended: processing a `Remove` for a handle that is not present
in the handle-to-index map panics (`unwrap` of a missing entry) rather
than being a no-op; in particular a second `Remove` for an
already-removed (and not re-inserted) handle panics as well. -/
theorem remove_unknown_handle_panics {T : Type} (m : InstanceManager T)
    (handle : Nat) (h : assocGet m.handle_to_instance handle = none) :
    m.remove handle = none := by
  unfold InstanceManager.remove
  rw [h]

/-- C9 amended witness: the panic at handle 0 on the empty manager. -/
theorem remove_unknown_handle_panics_witness :
    assocGet imEmpty.handle_to_instance 0 = none ∧ imEmpty.remove 0 = none :=
  ⟨by decide, remove_unknown_handle_panics imEmpty 0 (by decide)⟩

/-! ## Circuit data model (src/circuit.rs) -/

inductive ComponentType where
  | Pin
  | Flip
  | Flop
deriving DecidableEq, Repr

/-- `WireConnection` (src/rect.rs); `Default` is `Pin`. -/
inductive WireConnection where
  | Pin
  | SidePin
  | Output
deriving DecidableEq, Repr

structure TileWires where
  east : Option Nat
  north : Option Nat
  west : Option Nat
  south : Option Nat
deriving DecidableEq, Repr

def TileWires.empty : TileWires := ⟨none, none, none, none⟩

/-- `TileWires::count`: distinct wires at the tile, where a wire that
occupies both slots of one axis counts once. -/
def TileWires.count (w : TileWires) : Nat :=
  (if w.east.isSome then 1 else 0) +
  (if w.north.isSome then 1 else 0) +
  (if w.west.isSome ∧ w.west ≠ w.east then 1 else 0) +
  (if w.south.isSome ∧ w.south ≠ w.north then 1 else 0)

/-- `TileWires::get`. -/
def TileWires.get (w : TileWires) : Direction → Option Nat
  | .East => w.east
  | .North => w.north
  | .West => w.west
  | .South => w.south

/-- Assignment through `TileWires::get_mut`. -/
def TileWires.setDir (w : TileWires) (d : Direction) (v : Option Nat) :
    TileWires :=
  match d with
  | .East => { w with east := v }
  | .North => { w with north := v }
  | .West => { w with west := v }
  | .South => { w with south := v }

/-- `TileWires::as_array`. -/
def TileWires.asArray (w : TileWires) : List (Option Nat) :=
  [w.east, w.north, w.west, w.south]

/-- A tile; the crossover sprite handle of the source is kept as
presence/absence. -/
structure Tile where
  component : Option Nat
  crossover : Bool
  wires : TileWires
deriving DecidableEq, Repr

def Tile.empty : Tile := ⟨none, false, TileWires.empty⟩

/-- `Tile::update_crossover` (sprite allocation elided: the flag is set
exactly when the source holds a sprite). -/
def Tile.update_crossover (t : Tile) : Tile :=
  let wire_count := t.wires.count
  if t.component.isSome || decide (wire_count < 2) then
    { t with crossover := false }
  else if decide (wire_count ≥ 2) && !t.crossover then
    { t with crossover := true }
  else
    t

/-- `ComponentData` with the per-variant cluster state (`PinState`,
`FlipState`, `FlopState`); sprites elided. -/
inductive ComponentData where
  | pin (cluster_index : Nat)
  | flip (input_cluster_index output_cluster_index : Nat)
  | flop (input_cluster_index output_cluster_index : Nat)
deriving DecidableEq, Repr

structure Component where
  data : ComponentData
  position : IVec2
  orientation : Direction
deriving DecidableEq, Repr

/-- `Component::get_type`. -/
def Component.get_type (c : Component) : ComponentType :=
  match c.data with
  | .pin _ => .Pin
  | .flip _ _ => .Flip
  | .flop _ _ => .Flop

/-- `Component::connection_type`. -/
def Component.connection_type (c : Component) (direction : Direction) :
    WireConnection :=
  match c.get_type with
  | .Pin => .Pin
  | .Flip => if direction = c.orientation then .Output else .Pin
  | .Flop => if direction = c.orientation then .Output else .SidePin

/-- A wire record.  The source field `end` is a Lean keyword and is
called `stop` here. -/
structure Wire where
  start : IVec2
  stop : IVec2
  start_connection : WireConnection
  end_connection : WireConnection
  cluster_index : Nat
deriving DecidableEq, Repr

/-- `Wire::tiles`. -/
def Wire.tiles (w : Wire) : List IVec2 := wireTiles w.start w.stop

/-- `Wire::direction`. -/
def Wire.direction (w : Wire) : Direction := wireDirection w.start w.stop

/-! ## Depot (src/depot.rs)

The source mints handles from a process-global counter shared by all
depots; handles are only ever compared within one depot, so a per-depot
counter is an equivalent model. -/

structure Depot (α : Type) where
  items : List (Nat × α)
  next : Nat
deriving DecidableEq

def Depot.new {α : Type} : Depot α := ⟨[], 0⟩

def Depot.get? {α : Type} (d : Depot α) (h : Nat) : Option α :=
  (d.items.find? (fun p => p.1 = h)).map (fun p => p.2)

def Depot.insert {α : Type} (d : Depot α) (x : α) : Nat × Depot α :=
  (d.next, ⟨d.items ++ [(d.next, x)], d.next + 1⟩)

/-- `Depot::get_mut` followed by assignment: replace in place (absent
handles are a panic in the source; unchanged here). -/
def Depot.set {α : Type} (d : Depot α) (h : Nat) (x : α) : Depot α :=
  { d with items := d.items.map (fun p => if p.1 = h then (h, x) else p) }

/-- `Depot::remove` (drops the entry; the source also returns it, which
callers receive via `get?` first here). -/
def Depot.erase {α : Type} (d : Depot α) (h : Nat) : Depot α :=
  { d with items := d.items.filter (fun p => p.1 ≠ h) }

def Depot.len {α : Type} (d : Depot α) : Nat := d.items.length

/-- `GraphNode` (src/circuit.rs). -/
inductive GraphNode where
  | wire (handle : Nat)
  | component (handle : Nat) (direction : Direction)
deriving DecidableEq, Repr

/-! ## The Circuit state (renderers and sprite handles elided) -/

structure Circuit where
  tiles : List (IVec2 × Tile)
  components : Depot Component
  wires : Depot Wire
  simulation : Simulation
deriving DecidableEq

/-- `Circuit::new` (renderer setup elided). -/
def Circuit.new : Circuit :=
  ⟨[], Depot.new, Depot.new, Simulation.new⟩

/-- `HashMap<IVec2, Tile>` lookup. -/
def tilesGet (m : List (IVec2 × Tile)) (p : IVec2) : Option Tile :=
  (m.find? (fun q => q.1 = p)).map (fun q => q.2)

/-- `HashMap<IVec2, Tile>` insert-or-replace. -/
def tilesSet (m : List (IVec2 × Tile)) (p : IVec2) (t : Tile) :
    List (IVec2 × Tile) :=
  if (m.find? (fun q => q.1 = p)).isSome then
    m.map (fun q => if q.1 = p then (p, t) else q)
  else
    m ++ [(p, t)]

/-- `Circuit::tile`. -/
def Circuit.tile (c : Circuit) (p : IVec2) : Option Tile := tilesGet c.tiles p

/-- `self.tiles.entry(pos).or_default()` followed by in-place mutation:
read-modify-write, inserting the default tile when absent. -/
def Circuit.modifyTile (c : Circuit) (p : IVec2) (f : Tile → Tile) : Circuit :=
  { c with tiles := tilesSet c.tiles p (f ((tilesGet c.tiles p).getD Tile.empty)) }

/-- `self.tiles.get_mut(pos).unwrap()` followed by mutation: the absent
case is a panic in the source and leaves the state unchanged here. -/
def Circuit.modifyTileP (c : Circuit) (p : IVec2) (f : Tile → Tile) : Circuit :=
  match tilesGet c.tiles p with
  | none => c
  | some t => { c with tiles := tilesSet c.tiles p (f t) }

/-- `Circuit::component` (private accessor). -/
def Circuit.componentRec (c : Circuit) (p : IVec2) : Option Component :=
  ((c.tile p).bind (fun t => t.component)).bind (fun id => c.components.get? id)

/-- `Circuit::component_at`. -/
def Circuit.component_at (c : Circuit) (p : IVec2) : Option ComponentType :=
  (c.componentRec p).map (fun comp => comp.get_type)

/-- The per-tile test of the `can_place_wire` loop (src/circuit.rs):
the loop returns `false` the first time this is `false`. -/
def Circuit.canPlaceWireAt (c : Circuit) (start stop : IVec2)
    (wire_dir : Direction) (tile_pos : IVec2) : Bool :=
  match c.tile tile_pos with
  | none => true
  | some tile =>
    match tile.component with
    | none => true
    | some component_id =>
      match c.components.get? component_id with
      | none => true
      | some component =>
        match component.get_type with
        | .Pin => true
        | .Flip =>
          if (tile_pos ≠ start ∧ tile_pos ≠ stop) ∧
              (wire_dir = component.orientation ∨
                wire_dir = component.orientation.opposite) then
            false
          else
            true
        | .Flop =>
          if tile_pos ≠ start ∧ tile_pos ≠ stop then
            false
          else if wire_dir = component.orientation.left ∨
              wire_dir = component.orientation.right then
            false
          else
            true

/-- `Circuit::can_place_wire`: every tile on the segment must allow the
wire. -/
def Circuit.can_place_wire (c : Circuit) (start stop : IVec2) : Bool :=
  (wireTiles start stop).all
    (c.canPlaceWireAt start stop (wireDirection start stop))

/-- `Circuit::can_place_component`. -/
def Circuit.can_place_component (c : Circuit) (ty : ComponentType)
    (position : IVec2) (_orientation : Direction) : Bool :=
  match c.tile position with
  | none => true
  | some tile =>
    if tile.component.isSome then
      false
    else
      match ty with
      | .Pin => true
      | .Flip => if (tile.wires.get _orientation).isSome then false else true
      | .Flop => if tile.wires.count ≠ 0 then false else true

/-- `Circuit::cluster_id`.  The `unreachable!()` (flop side face) and
dead-handle panics yield 0 here; no caller reaches them. -/
def Circuit.cluster_id (c : Circuit) (node : GraphNode) : Nat :=
  match node with
  | .wire handle =>
    match c.wires.get? handle with
    | some w => w.cluster_index
    | none => 0
  | .component handle direction =>
    match c.components.get? handle with
    | none => 0
    | some comp =>
      match comp.data with
      | .pin ci => ci
      | .flip i o => if direction = comp.orientation then o else i
      | .flop i o =>
        if direction = comp.orientation then o
        else if direction = comp.orientation.opposite then i
        else 0

/-- `Circuit::neighbors`, with the visitor's visit order as list
order. -/
def Circuit.neighbors (c : Circuit) (node : GraphNode) : List GraphNode :=
  match node with
  | .wire handle =>
    match c.wires.get? handle with
    | none => []
    | some w =>
      (((c.tile w.start).bind (fun t => t.component)).toList.map
        (fun ch => GraphNode.component ch w.direction)) ++
      (((c.tile w.stop).bind (fun t => t.component)).toList.map
        (fun ch => GraphNode.component ch w.direction.opposite))
  | .component handle direction =>
    match c.components.get? handle with
    | none => []
    | some comp =>
      let tile := (c.tile comp.position).getD Tile.empty
      match comp.get_type with
      | .Flop => (tile.wires.get direction).toList.map GraphNode.wire
      | .Pin =>
        ([Relative.Same, Relative.Right, Relative.Opposite, Relative.Left].filterMap
          (fun rel => tile.wires.get (comp.orientation.rotate rel))).map
          GraphNode.wire
      | .Flip =>
        ((if direction = comp.orientation then [Relative.Same]
          else [Relative.Right, Relative.Opposite, Relative.Left]).filterMap
          (fun rel => tile.wires.get (comp.orientation.rotate rel))).map
          GraphNode.wire

/-- `Circuit::has_neighbors`. -/
def Circuit.has_neighbors (c : Circuit) (node : GraphNode) : Bool :=
  !(c.neighbors node).isEmpty

/-- The BFS worklist loop of `Circuit::cluster_of`.  The source loop
terminates because the visited set only grows inside the finite node
universe; here the same bound is supplied as explicit fuel (see
`Circuit.cluster_of`).  `Vec::pop` takes the most recently pushed node,
so the queue is kept head-first: push = cons, pop = head. -/
def Circuit.clusterOfAux (c : Circuit) :
    Nat → List GraphNode → List GraphNode → List GraphNode
  | 0, visited, _ => visited
  | _ + 1, visited, [] => visited
  | fuel + 1, visited, n :: rest =>
    let step :=
      (c.neighbors n).foldl
        (fun (acc : List GraphNode × List GraphNode) m =>
          if m ∈ acc.1 then acc else (acc.1 ++ [m], m :: acc.2))
        (visited, rest)
    c.clusterOfAux fuel step.1 step.2

/-- Fuel that dominates every BFS of the source: one pop per element
ever pushed, and at most one push per wire handle, per component
face (4 each) and for the root. -/
def Circuit.bfsFuel (c : Circuit) : Nat :=
  c.wires.len + 4 * c.components.len + 2

/-- `Circuit::cluster_of`: the set of graph nodes reachable from
`node`, as the list of first visits in order. -/
def Circuit.cluster_of (c : Circuit) (node : GraphNode) : List GraphNode :=
  c.clusterOfAux c.bfsFuel [node] [node]

/-- One iteration of the rewrite loops shared (textually duplicated) by
`Circuit::merge_clusters` and `Circuit::split_clusters`: point the
visited node's cluster reference at `into_index`, re-registering
flip/flop edges with the simulation.  The `unreachable!()` flop side
face leaves the state unchanged. -/
def Circuit.rewriteNode (c : Circuit) (into_index : Nat) (node : GraphNode) :
    Circuit :=
  match node with
  | .wire handle =>
    match c.wires.get? handle with
    | none => c
    | some w =>
      { c with wires := c.wires.set handle { w with cluster_index := into_index } }
  | .component handle direction =>
    match c.components.get? handle with
    | none => c
    | some comp =>
      match comp.data with
      | .pin _ =>
        { c with components :=
            c.components.set handle { comp with data := .pin into_index } }
      | .flip i o =>
        if direction = comp.orientation then
          { c with
            simulation := (c.simulation.remove_flip i o).add_flip i into_index
            components :=
              c.components.set handle { comp with data := .flip i into_index } }
        else
          { c with
            simulation := (c.simulation.remove_flip i o).add_flip into_index o
            components :=
              c.components.set handle { comp with data := .flip into_index o } }
      | .flop i o =>
        if direction = comp.orientation then
          { c with
            simulation := (c.simulation.remove_flop i o).add_flop i into_index
            components :=
              c.components.set handle { comp with data := .flop i into_index } }
        else if direction = comp.orientation.opposite then
          { c with
            simulation := (c.simulation.remove_flop i o).add_flop into_index o
            components :=
              c.components.set handle { comp with data := .flop into_index o } }
        else
          c

/-- `Circuit::merge_clusters`. -/
def Circuit.merge_clusters (c : Circuit) (intoNode fromNode : GraphNode) :
    Circuit :=
  let into_index := c.cluster_id intoNode
  let from_index := c.cluster_id fromNode
  if into_index = from_index then
    c
  else
    let from_cluster := c.cluster_of fromNode
    let c1 := from_cluster.foldl (fun acc node => acc.rewriteNode into_index node) c
    let c2 := { c1 with
      simulation := c1.simulation.set_powered into_index
        (c1.simulation.isPowered into_index || c1.simulation.isPowered from_index) }
    { c2 with simulation := c2.simulation.free_cluster from_index }

/-- `Circuit::split_clusters`. -/
def Circuit.split_clusters (c : Circuit) (keep split : GraphNode) : Circuit :=
  let keep_index := c.cluster_id keep
  if keep_index ≠ c.cluster_id split then
    c
  else
    let split_cluster := c.cluster_of split
    if keep ∈ split_cluster then
      c
    else
      let r := c.simulation.alloc_cluster
      let split_index := r.1
      let c0 := { c with
        simulation := r.2.set_powered split_index (r.2.isPowered keep_index) }
      split_cluster.foldl (fun acc node => acc.rewriteNode split_index node) c0

/-- `Circuit::split_all`: pairwise `split_clusters` over the wires found
at `position` in the given directions (`for i in 1..n { for j in 0..i }`;
the `i = 0` inner loop below is empty, so the ranges agree). -/
def Circuit.split_all (c : Circuit) (position : IVec2)
    (directions : List Direction) : Circuit :=
  let tile := (c.tile position).getD Tile.empty
  let nodes :=
    (directions.filterMap (fun d => tile.wires.get d)).map GraphNode.wire
  (List.range nodes.length).foldl
    (fun acc i =>
      (List.range i).foldl
        (fun acc2 j =>
          acc2.split_clusters (nodes.getD i (GraphNode.wire 0))
            (nodes.getD j (GraphNode.wire 0)))
        acc)
    c

/-- The node-accumulating folds of `Circuit::insert_component` and
`Circuit::insert_wire`: keep the first node, merging every later node's
cluster into it. -/
def Circuit.mergeFold (c : Circuit) (nodes : List GraphNode) :
    Option GraphNode × Circuit :=
  nodes.foldl
    (fun (acc : Option GraphNode × Circuit) next =>
      match acc.1 with
      | some current => (some current, acc.2.merge_clusters current next)
      | none => (some next, acc.2))
    (none, c)

/-- Resolve a folded node to a cluster id, allocating a fresh cluster
when there was none (`match node { Some(n) => cluster_id(n), None =>
alloc_cluster() }`). -/
def Circuit.resolveCluster (c : Circuit) (node : Option GraphNode) :
    Nat × Circuit :=
  match node with
  | some n => (c.cluster_id n, c)
  | none =>
    let a := c.simulation.alloc_cluster
    (a.1, { c with simulation := a.2 })

/-- The `match ty { ... }` block of `Circuit::insert_component` that
computes the per-variant `ComponentData` (merging or allocating clusters
and registering flip/flop edges); named separately for proofs. -/
def Circuit.componentDataFor (c : Circuit) (ty : ComponentType)
    (position : IVec2) (orientation : Direction) : ComponentData × Circuit :=
  let tileW : Option TileWires := (c.tile position).map (fun t => t.wires)
  match ty with
  | .Pin =>
    let nodes :=
      match tileW with
      | some w =>
        ([Direction.North, Direction.East, Direction.South,
          Direction.West].filterMap (fun d => w.get d)).map GraphNode.wire
      | none => []
    let r := c.mergeFold nodes
    let rc := r.2.resolveCluster r.1
    (.pin rc.1, rc.2)
  | .Flip =>
    let input_nodes :=
      match tileW with
      | some w =>
        ([orientation.right, orientation.opposite,
          orientation.left].filterMap (fun d => w.get d)).map GraphNode.wire
      | none => []
    let output_node : Option GraphNode :=
      (tileW.bind (fun w => w.get orientation)).map GraphNode.wire
    let r := c.mergeFold input_nodes
    let ri := r.2.resolveCluster r.1
    let ro := ri.2.resolveCluster output_node
    (.flip ri.1 ro.1,
      { ro.2 with simulation := ro.2.simulation.add_flip ri.1 ro.1 })
  | .Flop =>
    let input_node : Option GraphNode :=
      (tileW.bind (fun w => w.get orientation.opposite)).map GraphNode.wire
    let output_node : Option GraphNode :=
      (tileW.bind (fun w => w.get orientation)).map GraphNode.wire
    let ri := c.resolveCluster input_node
    let ro := ri.2.resolveCluster output_node
    (.flop ri.1 ro.1,
      { ro.2 with simulation := ro.2.simulation.add_flop ri.1 ro.1 })

/-- `Circuit::insert_component` (sprite construction elided). -/
def Circuit.insert_component (c : Circuit) (ty : ComponentType)
    (position : IVec2) (orientation : Direction) : Bool × Circuit :=
  if ((c.tile position).bind (fun t => t.component)).isSome then
    (false, c)
  else
    let mkData := c.componentDataFor ty position orientation
    let component : Component :=
      { data := mkData.1, position := position, orientation := orientation }
    let ins := mkData.2.components.insert component
    let c3 := { mkData.2 with components := ins.2 }
    (true,
      c3.modifyTile position
        (fun t => Tile.update_crossover { t with component := some ins.1 }))

/-- The two endpoint-component blocks of `Circuit::insert_wire`: keep
the first endpoint node found, merging the second one's cluster into it
(named separately for proofs). -/
def Circuit.wireEndpointFold (c : Circuit)
    (startNode endNode : Option GraphNode) : Option GraphNode × Circuit :=
  match startNode, endNode with
  | none, none => (none, c)
  | some n, none => (some n, c)
  | none, some n => (some n, c)
  | some n1, some n2 => (some n1, c.merge_clusters n1 n2)

/-- The body of `Circuit::insert_wire` after the canonicalizing swap
(`start ≤ stop` lexicographically); the axis-aligned/non-zero `assert!`
is elided (claims supply it as a hypothesis). -/
def Circuit.insert_wire_canonical (c : Circuit) (start stop : IVec2) :
    Bool × Circuit :=
  let dup : Bool :=
    match c.tile start with
    | some tile =>
      (tile.wires.asArray.filterMap id).any (fun id =>
        match c.wires.get? id with
        | some w => if w.start = start ∧ w.stop = stop then true else false
        | none => false)
    | none => false
  if dup then
    (false, c)
  else
    let direction := wireDirection start stop
    let start_connection :=
      match c.componentRec start with
      | some comp => comp.connection_type direction
      | none => WireConnection.Pin
    let end_connection :=
      match c.componentRec stop with
      | some comp => comp.connection_type direction.opposite
      | none => WireConnection.Pin
    let startNode : Option GraphNode :=
      ((c.tile start).bind (fun t => t.component)).map
        (fun h => GraphNode.component h direction)
    let endNode : Option GraphNode :=
      ((c.tile stop).bind (fun t => t.component)).map
        (fun h => GraphNode.component h direction.opposite)
    let folded := c.wireEndpointFold startNode endNode
    let rc := folded.2.resolveCluster folded.1
    let wire : Wire :=
      { start := start, stop := stop, start_connection := start_connection,
        end_connection := end_connection, cluster_index := rc.1 }
    let ins := rc.2.wires.insert wire
    let c3 := { rc.2 with wires := ins.2 }
    (true,
      (wireTiles start stop).foldl
        (fun acc pos =>
          acc.modifyTile pos (fun t =>
            let t1 :=
              if pos ≠ wire.start then
                { t with wires := t.wires.setDir wire.direction.opposite (some ins.1) }
              else t
            let t2 :=
              if pos ≠ wire.stop then
                { t1 with wires := t1.wires.setDir wire.direction (some ins.1) }
              else t1
            t2.update_crossover))
        c3)

/-- `Circuit::insert_wire`: canonicalize by swapping the endpoints when
`start > end` lexicographically (a tail call in the source), then run
the body. -/
def Circuit.insert_wire (c : Circuit) (p1 p2 : IVec2) : Bool × Circuit :=
  if IVec2.arrGt p1 p2 then
    c.insert_wire_canonical p2 p1
  else
    c.insert_wire_canonical p1 p2

/-- `Circuit::remove_wire`; `none` is the depot panic on a dead handle.
The per-tile `assert_eq!` slot checks are elided. -/
def Circuit.remove_wire (c : Circuit) (wire_id : Nat) :
    Option (Wire × Circuit) :=
  match c.wires.get? wire_id with
  | none => none
  | some wire =>
    let c1 :=
      if !(c.has_neighbors (GraphNode.wire wire_id)) then
        { c with simulation := c.simulation.free_cluster wire.cluster_index }
      else c
    let c2 := { c1 with wires := c1.wires.erase wire_id }
    let c3 :=
      wire.tiles.foldl
        (fun acc pos =>
          acc.modifyTileP pos (fun t =>
            let t1 :=
              if pos ≠ wire.start then
                { t with wires := t.wires.setDir wire.direction.opposite none }
              else t
            let t2 :=
              if pos ≠ wire.stop then
                { t1 with wires := t1.wires.setDir wire.direction none }
              else t1
            t2.update_crossover))
        c2
    let start_component := (c3.tile wire.start).bind (fun t => t.component)
    let end_component := (c3.tile wire.stop).bind (fun t => t.component)
    let c4 :=
      match start_component, end_component with
      | some s, some e =>
        c3.split_clusters (GraphNode.component s wire.direction)
          (GraphNode.component e wire.direction.opposite)
      | _, _ => c3
    some (wire, c4)

/-- `tile.wires.X.map(|id| self.remove_wire(id))` of
`Circuit::delete_component`: remove the wire behind the optional handle,
keeping the removed record. -/
def Circuit.removeWireOpt (c : Circuit) (o : Option Nat) :
    Option Wire × Circuit :=
  match o with
  | some wid =>
    match c.remove_wire wid with
    | some (w, cx) => (some w, cx)
    | none => (none, c)
  | none => (none, c)

/-- `self.remove_wire(id)` with the returned record discarded
(`Circuit::delete_all_at`). -/
def Circuit.removeWireById (c : Circuit) (wid : Nat) : Circuit :=
  match c.remove_wire wid with
  | some (_, cx) => cx
  | none => c

/-- `Circuit::remove_component`; `none` is the depot panic on a dead
handle. -/
def Circuit.remove_component (c : Circuit) (component_id : Nat) :
    Option (Component × Circuit) :=
  match c.components.get? component_id with
  | none => none
  | some component =>
    let orientation := component.orientation
    let c1 :=
      match component.data with
      | .pin ci =>
        if !(c.has_neighbors (GraphNode.component component_id Direction.North)) then
          { c with simulation := c.simulation.free_cluster ci }
        else c
      | .flip i o =>
        let cA := { c with simulation := c.simulation.remove_flip i o }
        let cB :=
          if !(cA.has_neighbors (GraphNode.component component_id orientation.opposite)) then
            { cA with simulation := cA.simulation.free_cluster i }
          else cA
        if !(cB.has_neighbors (GraphNode.component component_id orientation)) then
          { cB with simulation := cB.simulation.free_cluster o }
        else cB
      | .flop i o =>
        let cA := { c with simulation := c.simulation.remove_flop i o }
        let cB :=
          if !(cA.has_neighbors (GraphNode.component component_id orientation.opposite)) then
            { cA with simulation := cA.simulation.free_cluster i }
          else cA
        if !(cB.has_neighbors (GraphNode.component component_id orientation)) then
          { cB with simulation := cB.simulation.free_cluster o }
        else cB
    let c2 := { c1 with components := c1.components.erase component_id }
    let c3 :=
      c2.modifyTileP component.position
        (fun t => Tile.update_crossover { t with component := none })
    let c4 :=
      match component.data with
      | .pin _ =>
        c3.split_all component.position
          [Direction.North, Direction.East, Direction.South, Direction.West]
      | .flip _ _ =>
        c3.split_all component.position
          [orientation.right, orientation.opposite, orientation.left]
      | .flop _ _ => c3
    some (component, c4)

/-- One straight-through split of `Circuit::place_component`: when the
same wire occupies both opposite slots (`o1 == o2`), remove it and
re-insert the two halves meeting at `position`. -/
def Circuit.splitThrough (c : Circuit) (o1 o2 : Option Nat)
    (position : IVec2) : Circuit :=
  match o1 with
  | some wire_id =>
    if o1 = o2 then
      match c.remove_wire wire_id with
      | some (w, cr) =>
        ((cr.insert_wire w.start position).2.insert_wire position w.stop).2
      | none => c
    else c
  | none => c

/-- `Circuit::place_component`. -/
def Circuit.place_component (c : Circuit) (ty : ComponentType)
    (position : IVec2) (orientation : Direction) : Bool × Circuit :=
  if !(c.can_place_component ty position orientation) then
    (false, c)
  else
    let c1 := c.modifyTile position (fun t => t)
    let wires := ((tilesGet c1.tiles position).getD Tile.empty).wires
    let c2 := c1.splitThrough wires.north wires.south position
    let c3 := c2.splitThrough wires.east wires.west position
    (true, (c3.insert_component ty position orientation).2)

/-- `Circuit::place_wire`. -/
def Circuit.place_wire (c : Circuit) (start stop : IVec2) : Bool × Circuit :=
  if !(c.can_place_wire start stop) then
    (false, c)
  else
    let c1 := (c.place_component .Pin start Direction.East).2
    let c2 := (c1.place_component .Pin stop Direction.East).2
    let split_points :=
      (wireTiles start stop).filter
        (fun pos => ((tilesGet c2.tiles pos).bind (fun t => t.component)).isSome)
    (true,
      (split_points.zip split_points.tail).foldl
        (fun acc pr => (acc.insert_wire pr.1 pr.2).2) c2)

/-- `Circuit::delete_component`. -/
def Circuit.delete_component (c : Circuit) (position : IVec2) : Circuit :=
  match tilesGet c.tiles position with
  | none => c
  | some tile =>
    match tile.component with
    | none => c
    | some id =>
      match c.remove_component id with
      | none => c
      | some (component, c1) =>
        let rn := c1.removeWireOpt tile.wires.north
        let re := rn.2.removeWireOpt tile.wires.east
        let rs := re.2.removeWireOpt tile.wires.south
        let rw := rs.2.removeWireOpt tile.wires.west
        match component.get_type with
        | .Pin =>
          let c6 :=
            match rn.1, rs.1 with
            | some n, some s => (rw.2.insert_wire s.start n.stop).2
            | _, _ => rw.2
          match re.1, rw.1 with
          | some e, some w => (c6.insert_wire w.start e.stop).2
          | _, _ => c6
        | _ => rw.2

/-- `self.remove_component(id)` with the returned record discarded
(`Circuit::delete_all_at`). -/
def Circuit.removeComponentById (c : Circuit) (id : Nat) : Circuit :=
  match c.remove_component id with
  | some (_, cx) => cx
  | none => c

/-- `Circuit::delete_all_at`. -/
def Circuit.delete_all_at (c : Circuit) (position : IVec2) : Circuit :=
  match tilesGet c.tiles position with
  | none => c
  | some tile =>
    let c1 :=
      match tile.component with
      | some id => c.removeComponentById id
      | none => c
    let c2 :=
      match tile.wires.north with
      | some id => c1.removeWireById id
      | none => c1
    let c3 :=
      match tile.wires.south with
      | some id =>
        if tile.wires.south ≠ tile.wires.north then c2.removeWireById id
        else c2
      | none => c2
    let c4 :=
      match tile.wires.east with
      | some id => c3.removeWireById id
      | none => c3
    match tile.wires.west with
    | some id =>
      if tile.wires.west ≠ tile.wires.east then c4.removeWireById id
      else c4
    | none => c4

/-! ## Claim theorems about placement legality gating (C7) -/

/-- C7: when the legality check fails, the placement mutation returns
`false` and leaves the whole circuit state (tiles, components, wires,
simulation) unchanged — for wires and for components alike. -/
theorem failed_can_place_no_mutation (c : Circuit) (start stop pos : IVec2)
    (ty : ComponentType) (orient : Direction) :
    (c.can_place_wire start stop = false →
      c.place_wire start stop = (false, c)) ∧
    (c.can_place_component ty pos orient = false →
      c.place_component ty pos orient = (false, c)) := by
  constructor
  · intro h
    unfold Circuit.place_wire
    rw [h]
    rfl
  · intro h
    unfold Circuit.place_component
    rw [h]
    rfl

/-- C7 witness: a Flop at `(1,0)` rejects both a wire crossing it and a
second component on its tile; both placements return `false` and change
nothing. -/
theorem failed_can_place_no_mutation_witness :
    (let cW := (Circuit.new.place_component .Flop ⟨1, 0⟩ .East).2
     cW.can_place_wire ⟨0, 0⟩ ⟨2, 0⟩ = false ∧
     cW.can_place_component .Pin ⟨1, 0⟩ .East = false ∧
     cW.place_wire ⟨0, 0⟩ ⟨2, 0⟩ = (false, cW) ∧
     cW.place_component .Pin ⟨1, 0⟩ .East = (false, cW)) := by
  refine ⟨by decide, by decide, ?_, ?_⟩
  · exact (failed_can_place_no_mutation _ ⟨0, 0⟩ ⟨2, 0⟩ ⟨1, 0⟩ .Pin .East).1
      (by decide)
  · exact (failed_can_place_no_mutation _ ⟨0, 0⟩ ⟨2, 0⟩ ⟨1, 0⟩ .Pin .East).2
      (by decide)

/-! ## Claim C2: characterization of `can_place_wire` -/

/-- An axis-aligned, non-zero segment: exactly one coordinate agrees. -/
def AxisAligned (s e : IVec2) : Prop :=
  (s.x = e.x ∧ s.y ≠ e.y) ∨ (s.y = e.y ∧ s.x ≠ e.x)

instance (s e : IVec2) : Decidable (AxisAligned s e) := by
  unfold AxisAligned; infer_instance

/-- The claim's legality predicate, written from the spec's words: every
tile on the segment that holds a component must satisfy — a Pin always
allows the wire; a Flip on an interior tile allows it only when the
wire's direction is neither the Flip's orientation nor its opposite (at
an endpoint a Flip always allows it); a Flop allows it only when its
tile is an endpoint and the wire's direction is neither
`orientation.left()` nor `orientation.right()`. -/
def WireLegalSpec (c : Circuit) (start stop : IVec2) : Prop :=
  ∀ p ∈ wireTiles start stop, ∀ comp, c.componentRec p = some comp →
    (comp.get_type = .Pin) ∨
    (comp.get_type = .Flip ∧
      ((p ≠ start ∧ p ≠ stop) →
        (wireDirection start stop ≠ comp.orientation ∧
          wireDirection start stop ≠ comp.orientation.opposite))) ∨
    (comp.get_type = .Flop ∧ (p = start ∨ p = stop) ∧
      wireDirection start stop ≠ comp.orientation.left ∧
      wireDirection start stop ≠ comp.orientation.right)

lemma canPlaceWireAt_iff_spec (c : Circuit) (start stop p : IVec2) :
    c.canPlaceWireAt start stop (wireDirection start stop) p = true ↔
      (∀ comp, c.componentRec p = some comp →
        (comp.get_type = .Pin) ∨
        (comp.get_type = .Flip ∧
          ((p ≠ start ∧ p ≠ stop) →
            (wireDirection start stop ≠ comp.orientation ∧
              wireDirection start stop ≠ comp.orientation.opposite))) ∨
        (comp.get_type = .Flop ∧ (p = start ∨ p = stop) ∧
          wireDirection start stop ≠ comp.orientation.left ∧
          wireDirection start stop ≠ comp.orientation.right)) := by
  unfold Circuit.canPlaceWireAt Circuit.componentRec
  cases htile : c.tile p with
  | none => simp
  | some tile =>
    simp only [Option.some_bind]
    cases hcomp : tile.component with
    | none => simp
    | some id =>
      simp only [Option.some_bind]
      cases hget : c.components.get? id with
      | none => simp
      | some comp =>
        simp only [Option.some.injEq, forall_eq']
        cases hty : comp.get_type with
        | Pin => simp [hty]
        | Flip =>
          simp only [hty]
          by_cases hint : (p ≠ start ∧ p ≠ stop)
          · by_cases hdir : (wireDirection start stop = comp.orientation ∨
                wireDirection start stop = comp.orientation.opposite)
            · simp only [if_pos (And.intro hint hdir)]
              simp
              tauto
            · have hneg : ¬ ((p ≠ start ∧ p ≠ stop) ∧
                  (wireDirection start stop = comp.orientation ∨
                    wireDirection start stop = comp.orientation.opposite)) :=
                fun hh => hdir hh.2
              simp only [if_neg hneg]
              simp
              tauto
          · have : ¬ ((p ≠ start ∧ p ≠ stop) ∧
                (wireDirection start stop = comp.orientation ∨
                  wireDirection start stop = comp.orientation.opposite)) :=
              fun hh => hint hh.1
            simp only [if_neg this]
            simp
            tauto
        | Flop =>
          simp only [hty]
          by_cases hint : (p ≠ start ∧ p ≠ stop)
          · simp only [if_pos hint]
            simp
            tauto
          · simp only [if_neg hint]
            by_cases hdir : (wireDirection start stop = comp.orientation.left ∨
                wireDirection start stop = comp.orientation.right)
            · simp only [if_pos hdir]
              simp
              tauto
            · simp only [if_neg hdir]
              simp
              tauto

/-- C2: `can_place_wire(start, end)` returns `true` exactly when every
tile on the segment holding a component satisfies the spec's rule — Pin:
always; Flip: at an endpoint always, on an interior tile only when the
wire direction is neither the orientation nor its opposite; Flop: only
at an endpoint and only when the wire direction is neither
`orientation.left()` nor `orientation.right()`. -/
theorem can_place_wire_iff_spec (c : Circuit) (start stop : IVec2)
    (_h : AxisAligned start stop) :
    c.can_place_wire start stop = true ↔ WireLegalSpec c start stop := by
  unfold Circuit.can_place_wire WireLegalSpec
  rw [List.all_eq_true]
  constructor
  · intro hall p hp
    exact (canPlaceWireAt_iff_spec c start stop p).1 (hall p hp)
  · intro hspec p hp
    exact (canPlaceWireAt_iff_spec c start stop p).2 (hspec p hp)

/-- C2 witness: the characterization instantiated on a concrete circuit
(a Flop at `(1,0)` facing East) and the concrete segment
`(0,0)–(2,0)`. -/
theorem can_place_wire_iff_spec_witness :
    (let cW := (Circuit.new.place_component .Flop ⟨1, 0⟩ .East).2
     AxisAligned (⟨0, 0⟩ : IVec2) ⟨2, 0⟩ ∧
     (cW.can_place_wire ⟨0, 0⟩ ⟨2, 0⟩ = true ↔ WireLegalSpec cW ⟨0, 0⟩ ⟨2, 0⟩)) :=
  ⟨by decide,
    can_place_wire_iff_spec _ ⟨0, 0⟩ ⟨2, 0⟩ (by decide)⟩

/-! ## Geometry of `wire_tiles` -/

lemma clamp_eq_sign (a : Int) : max (-1) (min 1 a) = a.sign := by
  rcases lt_trichotomy a 0 with h | h | h
  · rw [Int.sign_eq_neg_one_of_neg h]; omega
  · subst h; rfl
  · rw [Int.sign_eq_one_of_pos h]; omega

lemma mem_wireTiles (s e p : IVec2) :
    p ∈ wireTiles s e ↔
      ∃ i : Nat, i ≤ (e.sub s).x.natAbs + (e.sub s).y.natAbs ∧
        p = s.add ((e.sub s).clampUnit.smul (i : Int)) := by
  simp only [wireTiles, List.mem_map, List.mem_range, Nat.lt_succ_iff]
  constructor
  · rintro ⟨i, hi, hif⟩
    exact ⟨i, hi, hif.symm⟩
  · rintro ⟨i, hi, hif⟩
    exact ⟨i, hi, hif.symm⟩

lemma wireTiles_endpoint (s e : IVec2) (h : AxisAligned s e) :
    s.add ((e.sub s).clampUnit.smul
      (((e.sub s).x.natAbs + (e.sub s).y.natAbs : Nat) : Int)) = e := by
  obtain ⟨sx, sy⟩ := s
  obtain ⟨ex, ey⟩ := e
  simp only [IVec2.sub, IVec2.clampUnit, IVec2.smul, IVec2.add, clamp_eq_sign,
    IVec2.mk.injEq]
  push_cast [Int.natCast_natAbs]
  rcases h with ⟨hx, _⟩ | ⟨hy, _⟩
  · simp only at hx
    have hzero : ex - sx = 0 := by omega
    rw [hzero]
    have hs := Int.sign_mul_abs (ey - sy)
    constructor
    · simp only [Int.sign_zero, zero_mul]
      omega
    · simp only [abs_zero, zero_add]
      omega
  · simp only at hy
    have hzero : ey - sy = 0 := by omega
    rw [hzero]
    have hs := Int.sign_mul_abs (ex - sx)
    constructor
    · simp only [abs_zero, add_zero]
      omega
    · simp only [Int.sign_zero, zero_mul]
      omega

lemma axisAligned_symm (s e : IVec2) (h : AxisAligned s e) : AxisAligned e s := by
  rcases h with ⟨hx, hy⟩ | ⟨hy, hx⟩
  · exact Or.inl ⟨hx.symm, fun hh => hy hh.symm⟩
  · exact Or.inr ⟨hy.symm, fun hh => hx hh.symm⟩

lemma mem_wireTiles_symm (s e p : IVec2) (h : AxisAligned s e) :
    p ∈ wireTiles e s ↔ p ∈ wireTiles s e := by
  rw [mem_wireTiles, mem_wireTiles]
  have hEnd := wireTiles_endpoint s e h
  set L := (e.sub s).x.natAbs + (e.sub s).y.natAbs with hL
  have hLen : (s.sub e).x.natAbs + (s.sub e).y.natAbs = L := by
    simp only [IVec2.sub, hL]
    omega
  have hray : (s.sub e).clampUnit = ⟨-(e.sub s).clampUnit.x, -(e.sub s).clampUnit.y⟩ := by
    simp only [IVec2.sub, IVec2.clampUnit, clamp_eq_sign, IVec2.mk.injEq]
    constructor
    · rw [show s.x - e.x = -(e.x - s.x) by ring, Int.sign_neg]
    · rw [show s.y - e.y = -(e.y - s.y) by ring, Int.sign_neg]
  have hEx : e.x = s.x + (e.sub s).clampUnit.x * L := by
    have := congrArg IVec2.x hEnd
    simp only [IVec2.add, IVec2.smul] at this
    omega
  have hEy : e.y = s.y + (e.sub s).clampUnit.y * L := by
    have := congrArg IVec2.y hEnd
    simp only [IVec2.add, IVec2.smul] at this
    omega
  constructor
  · rintro ⟨i, hi, rfl⟩
    rw [hLen] at hi
    refine ⟨L - i, by omega, ?_⟩
    rw [hray]
    simp only [IVec2.add, IVec2.smul, IVec2.mk.injEq]
    have hcast : ((L - i : Nat) : Int) = (L : Int) - (i : Int) := by omega
    constructor
    · rw [hEx, hcast]; ring
    · rw [hEy, hcast]; ring
  · rintro ⟨i, hi, rfl⟩
    rw [hLen]
    refine ⟨L - i, by omega, ?_⟩
    rw [hray]
    simp only [IVec2.add, IVec2.smul, IVec2.mk.injEq]
    have hcast : ((L - i : Nat) : Int) = (L : Int) - (i : Int) := by omega
    constructor
    · rw [hEx, hcast]; ring
    · rw [hEy, hcast]; ring

lemma wireDirection_symm (s e : IVec2) (h : AxisAligned s e) :
    wireDirection e s = (wireDirection s e).opposite := by
  unfold wireDirection
  rcases h with ⟨hx, hy⟩ | ⟨hy, hx⟩
  · rcases lt_or_gt_of_ne hy with h1 | h1
    · have h2 : ¬ (e.y < s.y) := by omega
      simp [hx, h1, h2, Direction.opposite, Direction.rotate]
    · have h2 : ¬ (s.y < e.y) := by omega
      simp [hx, h1, h2, Direction.opposite, Direction.rotate]
  · have hx2 : ¬ (e.x = s.x) := fun hh => hx hh.symm
    rcases lt_or_gt_of_ne hx with h1 | h1
    · have h2 : ¬ (e.x < s.x) := by omega
      simp [hx, hx2, h1, h2, Direction.opposite, Direction.rotate]
    · have h2 : ¬ (s.x < e.x) := by omega
      simp [hx, hx2, h1, h2, Direction.opposite, Direction.rotate]

/-! ## Claim C6: `place_wire` endpoint order -/

lemma flip_dirset_symm (d o : Direction) :
    (d.opposite = o ∨ d.opposite = o.opposite) ↔ (d = o ∨ d = o.opposite) := by
  cases d <;> cases o <;> simp [Direction.opposite, Direction.rotate]

lemma flop_dirset_symm (d o : Direction) :
    (d.opposite = o.left ∨ d.opposite = o.right) ↔
      (d = o.left ∨ d = o.right) := by
  cases d <;> cases o <;>
    simp [Direction.opposite, Direction.left, Direction.right, Direction.rotate]

lemma canPlaceWireAt_symm (c : Circuit) (s e p : IVec2)
    (h : AxisAligned s e) :
    c.canPlaceWireAt e s (wireDirection e s) p =
      c.canPlaceWireAt s e (wireDirection s e) p := by
  rw [wireDirection_symm s e h]
  unfold Circuit.canPlaceWireAt
  cases c.tile p with
  | none => rfl
  | some tile =>
    dsimp only
    cases tile.component with
    | none => rfl
    | some id =>
      dsimp only
      cases c.components.get? id with
      | none => rfl
      | some comp =>
        dsimp only
        cases comp.get_type with
        | Pin => rfl
        | Flip =>
          dsimp only
          exact if_congr
            (and_congr and_comm (flip_dirset_symm _ comp.orientation)) rfl rfl
        | Flop =>
          dsimp only
          exact if_congr and_comm rfl
            (if_congr (flop_dirset_symm _ comp.orientation) rfl rfl)

lemma can_place_wire_symm (c : Circuit) (s e : IVec2) (h : AxisAligned s e) :
    c.can_place_wire e s = c.can_place_wire s e := by
  have key : (c.can_place_wire e s = true) ↔ (c.can_place_wire s e = true) := by
    unfold Circuit.can_place_wire
    rw [List.all_eq_true, List.all_eq_true]
    constructor
    · intro hall p hp
      rw [← canPlaceWireAt_symm c s e p h]
      exact hall p ((mem_wireTiles_symm s e p h).2 hp)
    · intro hall p hp
      rw [canPlaceWireAt_symm c s e p h]
      exact hall p ((mem_wireTiles_symm s e p h).1 hp)
  have : ∀ a b : Bool, ((a = true) ↔ (b = true)) → a = b := by decide
  exact this _ _ key

lemma place_wire_fst (c : Circuit) (s e : IVec2) :
    (c.place_wire s e).1 = c.can_place_wire s e := by
  unfold Circuit.place_wire
  cases h : c.can_place_wire s e <;> simp [h]

/-- The lexicographic `<[i32;2]>` order is asymmetric. -/
lemma arrGt_asymm (p q : IVec2) (h : IVec2.arrGt p q = true) :
    IVec2.arrGt q p = false := by
  obtain ⟨px, py⟩ := p
  obtain ⟨qx, qy⟩ := q
  apply Bool.eq_false_iff.2
  intro hq
  simp only [IVec2.arrGt, Bool.or_eq_true, Bool.and_eq_true,
    decide_eq_true_eq] at h hq
  omega

/-- The lexicographic `<[i32;2]>` order is total: two points that are
not greater than each other coincide. -/
lemma arrGt_total (p q : IVec2) (h1 : IVec2.arrGt p q = false)
    (h2 : IVec2.arrGt q p = false) : p = q := by
  obtain ⟨px, py⟩ := p
  obtain ⟨qx, qy⟩ := q
  have h1n : ¬ IVec2.arrGt ⟨px, py⟩ ⟨qx, qy⟩ = true := by simp [h1]
  have h2n : ¬ IVec2.arrGt ⟨qx, qy⟩ ⟨px, py⟩ = true := by simp [h2]
  simp only [IVec2.arrGt, Bool.or_eq_true, Bool.and_eq_true,
    decide_eq_true_eq, not_or, not_and] at h1n h2n
  simp only [IVec2.mk.injEq]
  obtain ⟨h1x, h1y⟩ := h1n
  obtain ⟨h2x, h2y⟩ := h2n
  have hx : px = qx := by omega
  have hy1 := h1y hx
  have hy2 := h2y hx.symm
  exact ⟨hx, by omega⟩

/-- The canonicalizing swap at the head of `Circuit::insert_wire` makes
`insert_wire` itself exactly order-independent, for every circuit
state: both argument orders dispatch to the identical canonical call. -/
lemma insert_wire_symm (c : Circuit) (p q : IVec2) :
    c.insert_wire p q = c.insert_wire q p := by
  unfold Circuit.insert_wire
  by_cases h1 : IVec2.arrGt p q = true
  · rw [if_pos h1, if_neg (by simp [arrGt_asymm p q h1])]
  · by_cases h2 : IVec2.arrGt q p = true
    · rw [if_neg h1, if_pos h2]
    · have hpq := arrGt_total p q (Bool.eq_false_iff.2 h1)
        (Bool.eq_false_iff.2 h2)
      rw [if_neg h1, if_neg h2, hpq]

/-- The residual order-dependence of `place_wire` is identifier
assignment: from the empty circuit, `place_wire((0,0),(1,0))` and
`place_wire((1,0),(0,0))` both succeed, but the embedding's resulting
states are not structurally equal — the pin placed at `(0,0)` carries
depot handle 0 and cluster 0 in the first run and handle 1 and
cluster 1 in the second (the endpoint placed first keeps the surviving
cluster id through the merge), while the two states agree on every
identifier-independent observable. -/
theorem place_wire_order_state_cex :
    (Circuit.new.place_wire ⟨0, 0⟩ ⟨1, 0⟩).2 ≠
        (Circuit.new.place_wire ⟨1, 0⟩ ⟨0, 0⟩).2 ∧
      ((Circuit.new.place_wire ⟨0, 0⟩ ⟨1, 0⟩).2.componentRec ⟨0, 0⟩).map
          (fun comp => comp.data) = some (ComponentData.pin 0) ∧
      ((Circuit.new.place_wire ⟨1, 0⟩ ⟨0, 0⟩).2.componentRec ⟨0, 0⟩).map
          (fun comp => comp.data) = some (ComponentData.pin 1) := by
  refine ⟨?_, by decide, by decide⟩
  decide

/-- The boolean returned by `place_wire` is independent of the endpoint
order, for every circuit state: `can_place_wire` is symmetric under the
endpoint swap. -/
theorem place_wire_order_same_bool (c : Circuit) (s e : IVec2)
    (h : AxisAligned s e) :
    (c.place_wire s e).1 = (c.place_wire e s).1 := by
  rw [place_wire_fst, place_wire_fst, can_place_wire_symm c s e h]

/-- Boolean agreement of the two placement orders at a concrete
segment. -/
theorem place_wire_order_same_bool_witness :
    AxisAligned (⟨0, 0⟩ : IVec2) ⟨1, 0⟩ ∧
      (Circuit.new.place_wire ⟨0, 0⟩ ⟨1, 0⟩).1 =
        (Circuit.new.place_wire ⟨1, 0⟩ ⟨0, 0⟩).1 :=
  ⟨by decide, place_wire_order_same_bool Circuit.new ⟨0, 0⟩ ⟨1, 0⟩ (by decide)⟩

/-! ## Claim C5: the crossover invariant -/

/-- The per-tile crossover invariant: a crossover sprite is present
exactly when the tile has no component and at least two distinct wires
(`TileWires.count` counts a wire occupying both slots of one axis
once). -/
def TileInv (t : Tile) : Prop :=
  t.crossover = true ↔ (t.component = none ∧ t.wires.count ≥ 2)

lemma tileInv_update_crossover (t : Tile) : TileInv t.update_crossover := by
  unfold Tile.update_crossover TileInv
  by_cases hcnt : t.wires.count < 2
  · cases hcomp : t.component with
    | some a =>
      rw [if_pos (by simp [hcomp])]
      simp [hcomp]
    | none =>
      rw [if_pos (by simp [hcnt])]
      simp [hcomp]
      omega
  · cases hcomp : t.component with
    | some a =>
      rw [if_pos (by simp [hcomp])]
      simp [hcomp]
    | none =>
      rw [if_neg (by simp [hcomp, hcnt])]
      by_cases h2 : t.crossover
      · rw [if_neg (by simp [h2])]
        simp [h2, hcomp]
        omega
      · rw [if_pos (by simp [h2, Nat.le_of_not_lt hcnt])]
        simp [hcomp]
        omega

lemma tileInv_empty : TileInv Tile.empty := by
  unfold TileInv Tile.empty TileWires.count TileWires.empty
  simp

/-- Every tile of the circuit satisfies the crossover invariant. -/
def CircuitInv (c : Circuit) : Prop := ∀ pt ∈ c.tiles, TileInv pt.2

lemma circuitInv_of_tiles_eq {c1 c2 : Circuit} (h : c1.tiles = c2.tiles)
    (hc : CircuitInv c2) : CircuitInv c1 := by
  intro pt hpt
  exact hc pt (h ▸ hpt)

lemma tilesSet_inv {m : List (IVec2 × Tile)} {p : IVec2} {t : Tile}
    (hm : ∀ q ∈ m, TileInv q.2) (ht : TileInv t) :
    ∀ q ∈ tilesSet m p t, TileInv q.2 := by
  intro q hq
  unfold tilesSet at hq
  by_cases hfind : (m.find? (fun q => q.1 = p)).isSome
  · rw [if_pos hfind] at hq
    obtain ⟨r, hr, hrq⟩ := List.mem_map.1 hq
    by_cases hrp : r.1 = p
    · rw [if_pos hrp] at hrq; rw [← hrq]; exact ht
    · rw [if_neg hrp] at hrq; rw [← hrq]; exact hm r hr
  · rw [if_neg hfind] at hq
    rcases List.mem_append.1 hq with hq1 | hq2
    · exact hm q hq1
    · rw [List.mem_singleton.1 hq2]; exact ht

lemma circuitInv_modifyTile {c : Circuit} {p : IVec2} {f : Tile → Tile}
    (hc : CircuitInv c) (hf : ∀ t, TileInv (f t)) :
    CircuitInv (c.modifyTile p f) := by
  intro q hq
  exact tilesSet_inv hc (hf _) q hq

lemma circuitInv_modifyTileP {c : Circuit} {p : IVec2} {f : Tile → Tile}
    (hc : CircuitInv c) (hf : ∀ t, TileInv (f t)) :
    CircuitInv (c.modifyTileP p f) := by
  unfold Circuit.modifyTileP
  cases h : tilesGet c.tiles p with
  | none => exact hc
  | some t =>
    intro q hq
    exact tilesSet_inv hc (hf _) q hq

lemma circuitInv_modifyTile_id {c : Circuit} {p : IVec2}
    (hc : CircuitInv c) : CircuitInv (c.modifyTile p (fun t => t)) := by
  intro q hq
  refine tilesSet_inv hc ?_ q hq
  cases h : tilesGet c.tiles p with
  | none => simpa [h] using tileInv_empty
  | some t =>
    have hmem : (p, t) ∈ c.tiles := by
      unfold tilesGet at h
      obtain ⟨r, hfind⟩ := Option.map_eq_some'.1 h
      have hr := List.mem_of_find?_eq_some hfind.1
      have hrp : r.1 = p := by
        have := List.find?_some hfind.1
        simpa using this
      obtain ⟨r1, r2⟩ := r
      simp only at hrp
      rw [hrp] at hr
      rw [← hfind.2]
      exact hr
    simpa [h] using hc _ hmem

lemma tiles_rewriteNode (c : Circuit) (i : Nat) (n : GraphNode) :
    (c.rewriteNode i n).tiles = c.tiles := by
  unfold Circuit.rewriteNode
  cases n with
  | wire handle =>
    dsimp only
    cases c.wires.get? handle <;> rfl
  | component handle direction =>
    dsimp only
    cases c.components.get? handle with
    | none => rfl
    | some comp =>
      dsimp only
      cases comp.data with
      | pin ci => rfl
      | flip i o => dsimp only; split <;> rfl
      | flop i o =>
        dsimp only
        split
        · rfl
        · split <;> rfl

lemma tiles_foldl_general {β : Type} (L : List β) (F : Circuit → β → Circuit)
    (hF : ∀ c b, (F c b).tiles = c.tiles) :
    ∀ c : Circuit, (L.foldl F c).tiles = c.tiles := by
  induction L with
  | nil => intro c; rfl
  | cons n ns ih =>
    intro c
    rw [List.foldl_cons, ih, hF]

lemma tiles_foldl_rewriteNode (L : List GraphNode) (i : Nat) :
    ∀ c : Circuit,
      (L.foldl (fun acc node => acc.rewriteNode i node) c).tiles = c.tiles :=
  tiles_foldl_general L _ (fun c b => tiles_rewriteNode c i b)

lemma tiles_merge_clusters (c : Circuit) (a b : GraphNode) :
    (c.merge_clusters a b).tiles = c.tiles := by
  unfold Circuit.merge_clusters
  dsimp only
  split
  · rfl
  · exact tiles_foldl_rewriteNode _ _ c

lemma tiles_split_clusters (c : Circuit) (a b : GraphNode) :
    (c.split_clusters a b).tiles = c.tiles := by
  unfold Circuit.split_clusters
  dsimp only
  split
  · rfl
  · split
    · rfl
    · exact tiles_foldl_rewriteNode _ _ _

lemma tiles_split_all (c : Circuit) (p : IVec2) (ds : List Direction) :
    (c.split_all p ds).tiles = c.tiles := by
  unfold Circuit.split_all
  exact tiles_foldl_general _ _
    (fun c0 i => tiles_foldl_general _ _
      (fun c1 j => tiles_split_clusters c1 _ _) c0) c

lemma tiles_mergeFold_aux (L : List GraphNode) :
    ∀ acc : Option GraphNode × Circuit,
      ((L.foldl
        (fun (acc : Option GraphNode × Circuit) next =>
          match acc.1 with
          | some current => (some current, acc.2.merge_clusters current next)
          | none => (some next, acc.2)) acc).2).tiles = acc.2.tiles := by
  induction L with
  | nil => intro acc; rfl
  | cons n ns ih =>
    intro acc
    rw [List.foldl_cons, ih]
    cases acc.1 with
    | none => rfl
    | some cur => exact tiles_merge_clusters _ _ _

lemma tiles_mergeFold (c : Circuit) (L : List GraphNode) :
    ((c.mergeFold L).2).tiles = c.tiles :=
  tiles_mergeFold_aux L (none, c)

lemma tiles_resolveCluster (c : Circuit) (n : Option GraphNode) :
    ((c.resolveCluster n).2).tiles = c.tiles := by
  cases n <;> rfl

lemma tiles_componentDataFor (c : Circuit) (ty : ComponentType)
    (pos : IVec2) (o : Direction) :
    ((c.componentDataFor ty pos o).2).tiles = c.tiles := by
  cases ty <;>
    simp only [Circuit.componentDataFor, tiles_resolveCluster, tiles_mergeFold]

lemma circuitInv_insert_component (c : Circuit) (ty : ComponentType)
    (pos : IVec2) (o : Direction) (hc : CircuitInv c) :
    CircuitInv (c.insert_component ty pos o).2 := by
  unfold Circuit.insert_component
  dsimp only
  split
  · exact hc
  · refine circuitInv_modifyTile ?_ (fun t => tileInv_update_crossover _)
    refine circuitInv_of_tiles_eq ?_ hc
    show ((c.componentDataFor ty pos o).2).tiles = c.tiles
    exact tiles_componentDataFor c ty pos o

lemma circuitInv_foldl_modifyTile (L : List IVec2) (f : IVec2 → Tile → Tile)
    (hf : ∀ p t, TileInv (f p t)) :
    ∀ c : Circuit, CircuitInv c →
      CircuitInv (L.foldl (fun acc pos => acc.modifyTile pos (f pos)) c) := by
  induction L with
  | nil => intro c hc; exact hc
  | cons p ps ih =>
    intro c hc
    rw [List.foldl_cons]
    exact ih _ (circuitInv_modifyTile hc (hf p))

lemma circuitInv_foldl_modifyTileP (L : List IVec2) (f : IVec2 → Tile → Tile)
    (hf : ∀ p t, TileInv (f p t)) :
    ∀ c : Circuit, CircuitInv c →
      CircuitInv (L.foldl (fun acc pos => acc.modifyTileP pos (f pos)) c) := by
  induction L with
  | nil => intro c hc; exact hc
  | cons p ps ih =>
    intro c hc
    rw [List.foldl_cons]
    exact ih _ (circuitInv_modifyTileP hc (hf p))

lemma tiles_wireEndpointFold (c : Circuit) (a b : Option GraphNode) :
    ((c.wireEndpointFold a b).2).tiles = c.tiles := by
  cases a <;> cases b <;>
    first
      | rfl
      | exact tiles_merge_clusters _ _ _

lemma circuitInv_insert_wire_canonical (c : Circuit) (start stop : IVec2)
    (hc : CircuitInv c) : CircuitInv (c.insert_wire_canonical start stop).2 := by
  unfold Circuit.insert_wire_canonical
  dsimp only
  split
  · exact hc
  · refine circuitInv_foldl_modifyTile _ _
      (fun p t => tileInv_update_crossover _) _ ?_
    refine circuitInv_of_tiles_eq ?_ hc
    dsimp only
    simp only [tiles_resolveCluster, tiles_wireEndpointFold]

lemma circuitInv_insert_wire (c : Circuit) (p1 p2 : IVec2)
    (hc : CircuitInv c) : CircuitInv (c.insert_wire p1 p2).2 := by
  unfold Circuit.insert_wire
  split <;> exact circuitInv_insert_wire_canonical _ _ _ hc

lemma circuitInv_remove_wire {c : Circuit} {wire_id : Nat} {w : Wire}
    {cx : Circuit} (hc : CircuitInv c)
    (heq : c.remove_wire wire_id = some (w, cx)) : CircuitInv cx := by
  unfold Circuit.remove_wire at heq
  cases hget : c.wires.get? wire_id with
  | none => rw [hget] at heq; cases heq
  | some wire =>
    rw [hget] at heq
    simp only [Option.some.injEq, Prod.mk.injEq] at heq
    obtain ⟨-, h2⟩ := heq
    subst h2
    have hc1 : CircuitInv
        (if !(c.has_neighbors (GraphNode.wire wire_id)) then
          { c with simulation := c.simulation.free_cluster wire.cluster_index }
        else c) := by
      split
      · exact hc
      · exact hc
    have hc3 : CircuitInv
        (wire.tiles.foldl
          (fun acc pos =>
            acc.modifyTileP pos (fun t =>
              let t1 :=
                if pos ≠ wire.start then
                  { t with wires := t.wires.setDir wire.direction.opposite none }
                else t
              let t2 :=
                if pos ≠ wire.stop then
                  { t1 with wires := t1.wires.setDir wire.direction none }
                else t1
              t2.update_crossover))
          { (if !(c.has_neighbors (GraphNode.wire wire_id)) then
              { c with simulation := c.simulation.free_cluster wire.cluster_index }
            else c) with
            wires := (if !(c.has_neighbors (GraphNode.wire wire_id)) then
              { c with simulation := c.simulation.free_cluster wire.cluster_index }
            else c).wires.erase wire_id }) := by
      refine circuitInv_foldl_modifyTileP _ _
        (fun p t => tileInv_update_crossover _) _ ?_
      exact hc1
    generalize hC3 :
      (wire.tiles.foldl
        (fun acc pos =>
          acc.modifyTileP pos (fun t =>
            let t1 :=
              if pos ≠ wire.start then
                { t with wires := t.wires.setDir wire.direction.opposite none }
              else t
            let t2 :=
              if pos ≠ wire.stop then
                { t1 with wires := t1.wires.setDir wire.direction none }
              else t1
            t2.update_crossover))
        { (if !(c.has_neighbors (GraphNode.wire wire_id)) then
            { c with simulation := c.simulation.free_cluster wire.cluster_index }
          else c) with
          wires := (if !(c.has_neighbors (GraphNode.wire wire_id)) then
            { c with simulation := c.simulation.free_cluster wire.cluster_index }
          else c).wires.erase wire_id }) = C3 at hc3 ⊢
    cases (C3.tile wire.start).bind (fun t => t.component) with
    | none =>
      cases (C3.tile wire.stop).bind (fun t => t.component) with
      | none => exact hc3
      | some e2 => exact hc3
    | some s2 =>
      cases (C3.tile wire.stop).bind (fun t => t.component) with
      | none => exact hc3
      | some e2 =>
        exact circuitInv_of_tiles_eq (tiles_split_clusters _ _ _) hc3

lemma tiles_ite_update (P : Prop) [Decidable P] (c0 : Circuit)
    (s1 : Simulation) :
    (if P then { c0 with simulation := s1 } else c0).tiles = c0.tiles := by
  split <;> rfl

lemma circuitInv_remove_component {c : Circuit} {id : Nat} {comp : Component}
    {cx : Circuit} (hc : CircuitInv c)
    (heq : c.remove_component id = some (comp, cx)) : CircuitInv cx := by
  unfold Circuit.remove_component at heq
  cases hget : c.components.get? id with
  | none => rw [hget] at heq; cases heq
  | some component =>
    rw [hget] at heq
    simp only [Option.some.injEq, Prod.mk.injEq] at heq
    obtain ⟨-, h2⟩ := heq
    subst h2
    have hstep : ∀ c1 : Circuit, c1.tiles = c.tiles →
        CircuitInv (match component.data with
          | .pin _ =>
            (c1.modifyTileP component.position
              (fun t => Tile.update_crossover { t with component := none })).split_all
              component.position
              [Direction.North, Direction.East, Direction.South, Direction.West]
          | .flip _ _ =>
            (c1.modifyTileP component.position
              (fun t => Tile.update_crossover { t with component := none })).split_all
              component.position
              [component.orientation.right, component.orientation.opposite,
                component.orientation.left]
          | .flop _ _ =>
            c1.modifyTileP component.position
              (fun t => Tile.update_crossover { t with component := none })) := by
      intro c1 htiles
      have hbase : CircuitInv (c1.modifyTileP component.position
          (fun t => Tile.update_crossover { t with component := none })) :=
        circuitInv_modifyTileP (circuitInv_of_tiles_eq htiles hc)
          (fun t => tileInv_update_crossover _)
      cases component.data with
      | pin ci => exact circuitInv_of_tiles_eq (tiles_split_all _ _ _) hbase
      | flip i o => exact circuitInv_of_tiles_eq (tiles_split_all _ _ _) hbase
      | flop i o => exact hbase
    -- The simulation-only prefix `c1` and the component-depot erase do
    -- not touch the tiles.
    cases hdata : component.data with
    | pin ci =>
      rw [hdata] at hstep
      refine hstep _ ?_
      dsimp only
      rw [tiles_ite_update]
    | flip i o =>
      rw [hdata] at hstep
      refine hstep _ ?_
      dsimp only
      rw [tiles_ite_update]
      split <;> rfl
    | flop i o =>
      rw [hdata] at hstep
      refine hstep _ ?_
      dsimp only
      rw [tiles_ite_update]
      split <;> rfl

lemma circuitInv_removeWireOpt (c : Circuit) (o : Option Nat)
    (hc : CircuitInv c) : CircuitInv (c.removeWireOpt o).2 := by
  unfold Circuit.removeWireOpt
  cases o with
  | none => exact hc
  | some wid =>
    dsimp only
    cases h : c.remove_wire wid with
    | none => exact hc
    | some pr =>
      obtain ⟨w, cx⟩ := pr
      exact circuitInv_remove_wire hc h

lemma circuitInv_removeWireById (c : Circuit) (wid : Nat)
    (hc : CircuitInv c) : CircuitInv (c.removeWireById wid) := by
  unfold Circuit.removeWireById
  cases h : c.remove_wire wid with
  | none => exact hc
  | some pr =>
    obtain ⟨w, cx⟩ := pr
    exact circuitInv_remove_wire hc h

lemma circuitInv_removeComponentById (c : Circuit) (id : Nat)
    (hc : CircuitInv c) : CircuitInv (c.removeComponentById id) := by
  unfold Circuit.removeComponentById
  cases h : c.remove_component id with
  | none => exact hc
  | some pr =>
    obtain ⟨comp, cx⟩ := pr
    exact circuitInv_remove_component hc h

lemma circuitInv_splitThrough (c : Circuit) (o1 o2 : Option Nat)
    (pos : IVec2) (hc : CircuitInv c) :
    CircuitInv (c.splitThrough o1 o2 pos) := by
  unfold Circuit.splitThrough
  cases o1 with
  | none => exact hc
  | some wid =>
    dsimp only
    split
    · cases h : c.remove_wire wid with
      | none => exact hc
      | some pr =>
        obtain ⟨w, cr⟩ := pr
        exact circuitInv_insert_wire _ _ _
          (circuitInv_insert_wire _ _ _ (circuitInv_remove_wire hc h))
    · exact hc

lemma circuitInv_place_component (c : Circuit) (ty : ComponentType)
    (pos : IVec2) (o : Direction) (hc : CircuitInv c) :
    CircuitInv (c.place_component ty pos o).2 := by
  unfold Circuit.place_component
  dsimp only
  split
  · exact hc
  · exact circuitInv_insert_component _ _ _ _
      (circuitInv_splitThrough _ _ _ _
        (circuitInv_splitThrough _ _ _ _ (circuitInv_modifyTile_id hc)))

lemma circuitInv_foldl_insert_pairs (L : List (IVec2 × IVec2)) :
    ∀ c : Circuit, CircuitInv c →
      CircuitInv (L.foldl (fun acc pr => (acc.insert_wire pr.1 pr.2).2) c) := by
  induction L with
  | nil => intro c hc; exact hc
  | cons p ps ih =>
    intro c hc
    rw [List.foldl_cons]
    exact ih _ (circuitInv_insert_wire _ _ _ hc)

lemma circuitInv_place_wire (c : Circuit) (s e : IVec2) (hc : CircuitInv c) :
    CircuitInv (c.place_wire s e).2 := by
  unfold Circuit.place_wire
  dsimp only
  split
  · exact hc
  · exact circuitInv_foldl_insert_pairs _ _
      (circuitInv_place_component _ _ _ _
        (circuitInv_place_component _ _ _ _ hc))

lemma circuitInv_delete_component (c : Circuit) (pos : IVec2)
    (hc : CircuitInv c) : CircuitInv (c.delete_component pos) := by
  unfold Circuit.delete_component
  cases htile : tilesGet c.tiles pos with
  | none => exact hc
  | some tile =>
    dsimp only
    cases tile.component with
    | none => exact hc
    | some id =>
      dsimp only
      cases h : c.remove_component id with
      | none => exact hc
      | some pr =>
        obtain ⟨component, c1⟩ := pr
        dsimp only
        have hrw : CircuitInv
            ((((c1.removeWireOpt tile.wires.north).2.removeWireOpt
              tile.wires.east).2.removeWireOpt
              tile.wires.south).2.removeWireOpt tile.wires.west).2 :=
          circuitInv_removeWireOpt _ _
            (circuitInv_removeWireOpt _ _
              (circuitInv_removeWireOpt _ _
                (circuitInv_removeWireOpt _ _
                  (circuitInv_remove_component hc h))))
        cases component.get_type with
        | Flip => exact hrw
        | Flop => exact hrw
        | Pin =>
          cases (c1.removeWireOpt tile.wires.north).1 <;>
            cases (((c1.removeWireOpt tile.wires.north).2.removeWireOpt
              tile.wires.east).2.removeWireOpt tile.wires.south).1 <;>
            cases ((c1.removeWireOpt tile.wires.north).2.removeWireOpt
              tile.wires.east).1 <;>
            cases ((((c1.removeWireOpt tile.wires.north).2.removeWireOpt
              tile.wires.east).2.removeWireOpt
              tile.wires.south).2.removeWireOpt tile.wires.west).1 <;>
            first
              | exact hrw
              | exact circuitInv_insert_wire _ _ _ hrw
              | exact circuitInv_insert_wire _ _ _
                  (circuitInv_insert_wire _ _ _ hrw)

lemma circuitInv_delete_all_at (c : Circuit) (pos : IVec2)
    (hc : CircuitInv c) : CircuitInv (c.delete_all_at pos) := by
  unfold Circuit.delete_all_at
  cases htile : tilesGet c.tiles pos with
  | none => exact hc
  | some tile =>
    dsimp only
    have h1 : CircuitInv (match tile.component with
        | some id => c.removeComponentById id
        | none => c) := by
      cases tile.component with
      | none => exact hc
      | some id => exact circuitInv_removeComponentById _ _ hc
    have h2 : CircuitInv (match tile.wires.north with
        | some id =>
          (match tile.component with
            | some id => c.removeComponentById id
            | none => c).removeWireById id
        | none =>
          (match tile.component with
            | some id => c.removeComponentById id
            | none => c)) := by
      cases tile.wires.north with
      | none => exact h1
      | some id => exact circuitInv_removeWireById _ _ h1
    generalize hC2 : (match tile.wires.north with
        | some id =>
          (match tile.component with
            | some id => c.removeComponentById id
            | none => c).removeWireById id
        | none =>
          (match tile.component with
            | some id => c.removeComponentById id
            | none => c)) = C2 at h2 ⊢
    have h3 : CircuitInv (match tile.wires.south with
        | some id =>
          if tile.wires.south ≠ tile.wires.north then C2.removeWireById id
          else C2
        | none => C2) := by
      cases tile.wires.south with
      | none => exact h2
      | some id =>
        dsimp only
        by_cases hcond : ((some id : Option Nat) ≠ tile.wires.north)
        · rw [if_pos hcond]; exact circuitInv_removeWireById _ _ h2
        · rw [if_neg hcond]; exact h2
    generalize hC3 : (match tile.wires.south with
        | some id =>
          if tile.wires.south ≠ tile.wires.north then C2.removeWireById id
          else C2
        | none => C2) = C3 at h3 ⊢
    have h4 : CircuitInv (match tile.wires.east with
        | some id => C3.removeWireById id
        | none => C3) := by
      cases tile.wires.east with
      | none => exact h3
      | some id => exact circuitInv_removeWireById _ _ h3
    generalize hC4 : (match tile.wires.east with
        | some id => C3.removeWireById id
        | none => C3) = C4 at h4 ⊢
    cases tile.wires.west with
    | none => exact h4
    | some id =>
      dsimp only
      by_cases hcond : ((some id : Option Nat) ≠ tile.wires.east)
      · rw [if_pos hcond]; exact circuitInv_removeWireById _ _ h4
      · rw [if_neg hcond]; exact h4

/-- Circuit states reachable from the empty circuit through the public
mutations `place_wire`, `place_component`, `delete_component` and
`delete_all_at`. -/
inductive Reachable : Circuit → Prop where
  | base : Reachable Circuit.new
  | pw (c : Circuit) (s e : IVec2) :
      Reachable c → Reachable (c.place_wire s e).2
  | pc (c : Circuit) (ty : ComponentType) (pos : IVec2) (o : Direction) :
      Reachable c → Reachable (c.place_component ty pos o).2
  | dc (c : Circuit) (pos : IVec2) :
      Reachable c → Reachable (c.delete_component pos)
  | da (c : Circuit) (pos : IVec2) :
      Reachable c → Reachable (c.delete_all_at pos)

/-- C5: in every state reachable by the public mutations, every tile in
the map has a crossover sprite exactly when it has no component and at
least two distinct wires pass over it (a wire occupying both opposite
slots of one axis counting once, as in `TileWires::count`). -/
theorem crossover_invariant_reachable (c : Circuit) (h : Reachable c) :
    ∀ pt ∈ c.tiles,
      (pt.2.crossover = true ↔
        (pt.2.component = none ∧ pt.2.wires.count ≥ 2)) := by
  have hinv : CircuitInv c := by
    induction h with
    | base => intro pt hpt; cases hpt
    | pw c s e _ ih => exact circuitInv_place_wire _ _ _ ih
    | pc c ty pos o _ ih => exact circuitInv_place_component _ _ _ _ ih
    | dc c pos _ ih => exact circuitInv_delete_component _ _ ih
    | da c pos _ ih => exact circuitInv_delete_all_at _ _ ih
  exact hinv

/-- C5 witness: the invariant on the concrete circuit with two crossing
wires, whose middle tile `(0,0)` carries a crossover sprite. -/
theorem crossover_invariant_reachable_witness :
    (∀ pt ∈ ((Circuit.new.place_wire ⟨-2, 0⟩ ⟨2, 0⟩).2.place_wire
        ⟨0, -2⟩ ⟨0, 2⟩).2.tiles,
      (pt.2.crossover = true ↔
        (pt.2.component = none ∧ pt.2.wires.count ≥ 2))) ∧
    (((Circuit.new.place_wire ⟨-2, 0⟩ ⟨2, 0⟩).2.place_wire
        ⟨0, -2⟩ ⟨0, 2⟩).2.tile ⟨0, 0⟩).map (fun t => t.crossover) =
      some true :=
  ⟨crossover_invariant_reachable _
      (Reachable.pw _ _ _ (Reachable.pw _ _ _ Reachable.base)),
    by decide⟩

/-! ## Claim C3: tile-map lemmas for symbolic execution -/

lemma tilesGet_nil (p : IVec2) : tilesGet [] p = none := rfl

lemma tilesGet_cons (a : IVec2 × Tile) (m : List (IVec2 × Tile)) (q : IVec2) :
    tilesGet (a :: m) q = if a.1 = q then some a.2 else tilesGet m q := by
  unfold tilesGet
  by_cases h : a.1 = q
  · rw [if_pos h]
    rw [List.find?_cons_of_pos _ (by simpa using h)]
    rfl
  · rw [if_neg h]
    rw [List.find?_cons_of_neg _ (by simpa using h)]

lemma tilesSet_nil (p : IVec2) (t : Tile) : tilesSet [] p t = [(p, t)] := rfl

lemma tilesSet_cons_ne (a : IVec2 × Tile) (m : List (IVec2 × Tile))
    (p : IVec2) (t : Tile) (h : a.1 ≠ p) :
    tilesSet (a :: m) p t = a :: tilesSet m p t := by
  unfold tilesSet
  rw [List.find?_cons_of_neg _ (by simpa using h)]
  by_cases hm : (m.find? (fun q => q.1 = p)).isSome
  · rw [if_pos hm, if_pos hm, List.map_cons, if_neg h]
  · rw [if_neg hm, if_neg hm, List.cons_append]

lemma tilesSet_cons_self (a : IVec2 × Tile) (m : List (IVec2 × Tile))
    (t : Tile) (hm : tilesGet m a.1 = none) :
    tilesSet (a :: m) a.1 t = (a.1, t) :: m := by
  unfold tilesSet
  rw [List.find?_cons_of_pos _ (by simp)]
  simp only [Option.isSome_some, if_pos trivial, List.map_cons, if_pos rfl]
  congr 1
  have hfind : m.find? (fun q => q.1 = a.1) = none := by
    unfold tilesGet at hm
    cases h : m.find? (fun q => q.1 = a.1) with
    | none => rfl
    | some r => rw [h] at hm; cases hm
  have : ∀ q ∈ m, ¬ (q.1 = a.1) := by
    intro q hq
    have := List.find?_eq_none.1 hfind q hq
    simpa using this
  conv_rhs => rw [← List.map_id m]
  refine List.map_congr_left ?_
  intro q hq
  rw [if_neg (this q hq)]
  rfl

lemma tilesGet_find?_isSome (m : List (IVec2 × Tile)) (p : IVec2) :
    (m.find? (fun q => q.1 = p)).isSome = (tilesGet m p).isSome := by
  unfold tilesGet
  cases m.find? (fun q => q.1 = p) <;> rfl

lemma tilesGet_map_update (m : List (IVec2 × Tile)) (p : IVec2) (t : Tile)
    (q : IVec2) (h : q ≠ p) :
    tilesGet (m.map (fun r => if r.1 = p then (p, t) else r)) q =
      tilesGet m q := by
  induction m with
  | nil => rfl
  | cons b mb ih =>
    rw [List.map_cons, tilesGet_cons, tilesGet_cons]
    by_cases hb : b.1 = p
    · rw [if_pos hb]
      simp only
      rw [if_neg (fun hh : p = q => h hh.symm),
        if_neg (fun hh : b.1 = q => h (hb.symm.trans hh).symm), ih]
    · rw [if_neg hb]
      by_cases hbq : b.1 = q
      · rw [if_pos hbq, if_pos hbq]
      · rw [if_neg hbq, if_neg hbq, ih]

lemma tilesGet_map_update_self (m : List (IVec2 × Tile)) (p : IVec2)
    (t : Tile) (hp : (tilesGet m p).isSome = true) :
    tilesGet (m.map (fun r => if r.1 = p then (p, t) else r)) p = some t := by
  induction m with
  | nil => simp [tilesGet] at hp
  | cons b mb ih =>
    rw [List.map_cons, tilesGet_cons]
    by_cases hb : b.1 = p
    · rw [if_pos hb]
      simp
    · rw [if_neg hb, if_neg hb]
      refine ih ?_
      rw [tilesGet_cons, if_neg hb] at hp
      exact hp

lemma tilesGet_append (m1 m2 : List (IVec2 × Tile)) (q : IVec2) :
    tilesGet (m1 ++ m2) q =
      match tilesGet m1 q with
      | some t => some t
      | none => tilesGet m2 q := by
  induction m1 with
  | nil => rfl
  | cons b mb ih =>
    rw [List.cons_append, tilesGet_cons, tilesGet_cons]
    by_cases hb : b.1 = q
    · rw [if_pos hb, if_pos hb]
    · rw [if_neg hb, if_neg hb, ih]

lemma tilesGet_set_self (m : List (IVec2 × Tile)) (p : IVec2) (t : Tile) :
    tilesGet (tilesSet m p t) p = some t := by
  unfold tilesSet
  by_cases hf : (m.find? (fun q => q.1 = p)).isSome
  · rw [if_pos hf]
    exact tilesGet_map_update_self m p t
      ((tilesGet_find?_isSome m p) ▸ (by simpa using hf))
  · rw [if_neg hf, tilesGet_append]
    have hnone : tilesGet m p = none := by
      rw [tilesGet_find?_isSome] at hf
      cases h : tilesGet m p with
      | none => rfl
      | some t0 => rw [h] at hf; exact absurd rfl hf
    rw [hnone, tilesGet_cons]
    simp

lemma tilesGet_set_ne (m : List (IVec2 × Tile)) (p q : IVec2) (t : Tile)
    (h : q ≠ p) : tilesGet (tilesSet m p t) q = tilesGet m q := by
  unfold tilesSet
  by_cases hf : (m.find? (fun q => q.1 = p)).isSome
  · rw [if_pos hf]
    exact tilesGet_map_update m p t q h
  · rw [if_neg hf, tilesGet_append]
    cases h1 : tilesGet m q with
    | some t0 => rfl
    | none =>
      rw [tilesGet_cons, tilesGet_nil]
      simp only
      rw [if_neg (fun hh : p = q => h hh.symm)]

/-- A fold of `modifyTile` steps only rewrites the tile map. -/
lemma foldl_modifyTile_eq (L : List IVec2) (f : IVec2 → Tile → Tile) :
    ∀ c : Circuit,
      L.foldl (fun acc pos => acc.modifyTile pos (f pos)) c =
        { c with tiles := (L.foldl
            (fun m pos => tilesSet m pos (f pos ((tilesGet m pos).getD Tile.empty)))
            c.tiles) } := by
  induction L with
  | nil => intro c; rfl
  | cons p ps ih =>
    intro c
    rw [List.foldl_cons, List.foldl_cons, ih]
    rfl

/-- Pointwise description of a fold of keyed tile updates over distinct
keys. -/
lemma tilesGet_fold_set (L : List IVec2) (F : IVec2 → Tile → Tile) :
    ∀ m0 : List (IVec2 × Tile), L.Nodup → ∀ q : IVec2,
      tilesGet
        (L.foldl
          (fun m pos => tilesSet m pos (F pos ((tilesGet m pos).getD Tile.empty)))
          m0) q =
      if q ∈ L then some (F q ((tilesGet m0 q).getD Tile.empty))
      else tilesGet m0 q := by
  induction L with
  | nil =>
    intro m0 _ q
    simp
  | cons p ps ih =>
    intro m0 hnd q
    obtain ⟨hp, hnd2⟩ := List.nodup_cons.1 hnd
    rw [List.foldl_cons,
      ih (tilesSet m0 p (F p ((tilesGet m0 p).getD Tile.empty))) hnd2 q]
    by_cases hqs : q ∈ ps
    · have hq : q ∈ p :: ps := List.mem_cons_of_mem p hqs
      have hqp : q ≠ p := fun hh => hp (hh ▸ hqs)
      rw [if_pos hqs, if_pos hq, tilesGet_set_ne m0 p q _ hqp]
    · rw [if_neg hqs]
      by_cases hqp : q = p
      · subst hqp
        rw [if_pos (List.mem_cons_self q ps), tilesGet_set_self]
      · have : q ∉ p :: ps := by
          intro hh
          rcases List.mem_cons.1 hh with h1 | h2
          · exact hqp h1
          · exact hqs h2
        rw [if_neg this, tilesGet_set_ne m0 p q _ hqp]

/-- Entries of `tilesSet` are the new pair or old entries at other
keys. -/
lemma mem_tilesSet (m : List (IVec2 × Tile)) (p : IVec2) (t : Tile)
    (pt : IVec2 × Tile) (h : pt ∈ tilesSet m p t) :
    pt = (p, t) ∨ (pt ∈ m ∧ pt.1 ≠ p) := by
  unfold tilesSet at h
  by_cases hf : (m.find? (fun q => q.1 = p)).isSome
  · rw [if_pos hf] at h
    obtain ⟨r, hr, hrq⟩ := List.mem_map.1 h
    by_cases hrp : r.1 = p
    · rw [if_pos hrp] at hrq
      exact Or.inl hrq.symm
    · rw [if_neg hrp] at hrq
      subst hrq
      exact Or.inr ⟨hr, hrp⟩
  · rw [if_neg hf] at h
    rcases List.mem_append.1 h with h1 | h2
    · right
      refine ⟨h1, ?_⟩
      intro hrp
      have hfn : m.find? (fun q => q.1 = p) = none := by
        cases hfind : m.find? (fun q => q.1 = p) with
        | none => rfl
        | some r => rw [hfind] at hf; simp at hf
      have := List.find?_eq_none.1 hfn pt h1
      simp [hrp] at this
    · exact Or.inl (List.mem_singleton.1 h2)

/-! ## Structure of `wireTiles` on an axis-aligned segment -/

/-- The step count of `wireTiles s e`. -/
def wireLen (s e : IVec2) : Nat :=
  (e.sub s).x.natAbs + (e.sub s).y.natAbs

/-- The `i`-th tile of `wireTiles s e`. -/
def wirePt (s e : IVec2) (i : Nat) : IVec2 :=
  s.add ((e.sub s).clampUnit.smul (i : Int))

lemma wireTiles_eq_map (s e : IVec2) :
    wireTiles s e = (List.range (wireLen s e + 1)).map (wirePt s e) := rfl

lemma wireLen_pos (s e : IVec2) (h : AxisAligned s e) : 1 ≤ wireLen s e := by
  unfold wireLen IVec2.sub
  rcases h with ⟨hx, hy⟩ | ⟨hy, hx⟩ <;> simp only <;> omega

lemma wirePt_zero (s e : IVec2) : wirePt s e 0 = s := by
  unfold wirePt IVec2.add IVec2.smul
  obtain ⟨sx, sy⟩ := s
  simp

lemma wirePt_len (s e : IVec2) (h : AxisAligned s e) :
    wirePt s e (wireLen s e) = e :=
  wireTiles_endpoint s e h

lemma wirePt_inj (s e : IVec2) (h : AxisAligned s e) (i j : Nat)
    (hij : wirePt s e i = wirePt s e j) : i = j := by
  obtain ⟨sx, sy⟩ := s
  obtain ⟨ex, ey⟩ := e
  unfold wirePt IVec2.add IVec2.smul IVec2.clampUnit IVec2.sub at hij
  simp only [clamp_eq_sign, IVec2.mk.injEq] at hij
  obtain ⟨h1, h2⟩ := hij
  unfold AxisAligned at h
  simp only at h
  rcases h with ⟨hx, hy⟩ | ⟨hy, hx⟩
  · rcases lt_or_gt_of_ne hy with hlt | hlt
    · rw [Int.sign_eq_one_of_pos (by omega)] at h2; omega
    · rw [Int.sign_eq_neg_one_of_neg (by omega)] at h2; omega
  · rcases lt_or_gt_of_ne hx with hlt | hlt
    · rw [Int.sign_eq_one_of_pos (by omega)] at h1; omega
    · rw [Int.sign_eq_neg_one_of_neg (by omega)] at h1; omega

lemma wireTiles_nodup (s e : IVec2) (h : AxisAligned s e) :
    (wireTiles s e).Nodup := by
  rw [wireTiles_eq_map]
  refine List.Nodup.map_on ?_ (List.nodup_range _)
  intro i _ j _ hij
  exact wirePt_inj s e h i j hij

lemma mem_wireTiles_pt (s e p : IVec2) :
    p ∈ wireTiles s e ↔ ∃ i : Nat, i ≤ wireLen s e ∧ p = wirePt s e i :=
  mem_wireTiles s e p

lemma start_mem_wireTiles (s e : IVec2) : s ∈ wireTiles s e :=
  (mem_wireTiles_pt s e s).2 ⟨0, Nat.zero_le _, (wirePt_zero s e).symm⟩

lemma stop_mem_wireTiles (s e : IVec2) (h : AxisAligned s e) :
    e ∈ wireTiles s e :=
  (mem_wireTiles_pt s e e).2 ⟨wireLen s e, Nat.le_refl _, (wirePt_len s e h).symm⟩

lemma range_filter_zero (n : Nat) (hn : 1 ≤ n) :
    (List.range n).filter (fun i => decide (i = 0)) = [0] := by
  induction n with
  | zero => omega
  | succ m ih =>
    rw [List.range_succ, List.filter_append]
    by_cases hm : m = 0
    · subst hm
      rfl
    · rw [ih (by omega)]
      simp [hm]

lemma range_filter_ends (n : Nat) (hn : 1 ≤ n) :
    (List.range (n + 1)).filter (fun i => decide (i = 0) || decide (i = n)) =
      [0, n] := by
  rw [List.range_succ, List.filter_append]
  have h1 : (List.range n).filter (fun i => decide (i = 0) || decide (i = n)) =
      (List.range n).filter (fun i => decide (i = 0)) := by
    refine List.filter_congr ?_
    intro i hi
    have : i ≠ n := Nat.ne_of_lt (List.mem_range.1 hi)
    simp [this]
  rw [h1, range_filter_zero n hn]
  have : n ≠ 0 := by omega
  simp [this]

/-- On the two-pin state, the split-point filter of `place_wire` keeps
exactly the two endpoints, in segment order. -/
lemma wireTiles_filter_ends (s e : IVec2) (h : AxisAligned s e)
    (pred : IVec2 → Bool)
    (hpred : ∀ p ∈ wireTiles s e, pred p = (decide (p = s) || decide (p = e))) :
    (wireTiles s e).filter pred = [s, e] := by
  rw [wireTiles_eq_map]
  rw [List.filter_congr (fun p hp => hpred p (by rw [wireTiles_eq_map]; exact hp))]
  rw [List.filter_map]
  have hsel : ∀ i ∈ List.range (wireLen s e + 1),
      ((fun p => decide (p = s) || decide (p = e)) ∘ wirePt s e) i =
        (decide (i = 0) || decide (i = wireLen s e)) := by
    intro i hi
    have hi2 := Nat.lt_succ_iff.1 (List.mem_range.1 hi)
    show (decide (wirePt s e i = s) || decide (wirePt s e i = e)) = _
    have e1 : (wirePt s e i = s) = (i = 0) := by
      apply propext
      constructor
      · intro hh
        exact wirePt_inj s e h i 0 (by rw [hh, wirePt_zero])
      · intro hh; rw [hh, wirePt_zero]
    have e2 : (wirePt s e i = e) = (i = wireLen s e) := by
      apply propext
      constructor
      · intro hh
        exact wirePt_inj s e h i (wireLen s e) (by rw [hh, wirePt_len s e h])
      · intro hh; rw [hh, wirePt_len s e h]
    have d1 : decide (wirePt s e i = s) = decide (i = 0) :=
      decide_eq_decide.2 (iff_of_eq e1)
    have d2 : decide (wirePt s e i = e) = decide (i = wireLen s e) :=
      decide_eq_decide.2 (iff_of_eq e2)
    rw [d1, d2]
  rw [List.filter_congr hsel, range_filter_ends _ (wireLen_pos s e h)]
  simp [wirePt_zero, wirePt_len s e h]

/-! ## Symbolic execution of the C3 round trip -/

/-- The tile of a freshly placed pin. -/
def pinTile (h : Nat) : Tile :=
  { component := some h, crossover := false, wires := TileWires.empty }

/-- State after `place_component(Pin, s, East)` on the empty circuit. -/
def onePin (s : IVec2) : Circuit :=
  { tiles := [(s, pinTile 0)],
    components := ⟨[(0, ⟨.pin 0, s, .East⟩)], 1⟩,
    wires := ⟨[], 0⟩,
    simulation := ⟨1, [], [false], [false], [[]], [[]], [0]⟩ }

/-- State after placing the second pin at `e`. -/
def twoPin (s e : IVec2) : Circuit :=
  { tiles := [(s, pinTile 0), (e, pinTile 1)],
    components := ⟨[(0, ⟨.pin 0, s, .East⟩), (1, ⟨.pin 1, e, .East⟩)], 2⟩,
    wires := ⟨[], 0⟩,
    simulation := ⟨2, [], [false, false], [false, false], [[], []], [[], []],
      [0, 0]⟩ }

lemma place_pin_on_empty (s : IVec2) :
    Circuit.new.place_component .Pin s .East = (true, onePin s) := by
  unfold Circuit.place_component Circuit.can_place_component Circuit.new
    Circuit.tile Circuit.modifyTile Circuit.splitThrough
    Circuit.insert_component Circuit.componentDataFor Circuit.mergeFold
    Circuit.resolveCluster onePin pinTile
  simp [tilesGet_nil, tilesSet_nil, tilesGet_cons, Tile.empty, TileWires.empty,
    TileWires.get, Depot.new, Depot.insert, Simulation.new,
    Simulation.alloc_cluster, Tile.update_crossover, TileWires.count,
    Circuit.tile, tilesGet]
  unfold Circuit.modifyTile
  simp [tilesGet_cons, tilesSet]

lemma place_pin_second (s e : IVec2) (hne : s ≠ e) :
    (onePin s).place_component .Pin e .East = (true, twoPin s e) := by
  have hne2 : e ≠ s := fun hh => hne hh.symm
  unfold Circuit.place_component Circuit.can_place_component onePin
    Circuit.tile Circuit.modifyTile Circuit.splitThrough
    Circuit.insert_component Circuit.componentDataFor Circuit.mergeFold
    Circuit.resolveCluster twoPin pinTile
  simp [tilesGet_nil, tilesSet_nil, tilesGet_cons, tilesSet_cons_ne,
    tilesSet_cons_self, hne, hne2, Tile.empty, TileWires.empty, TileWires.get,
    Depot.insert, Simulation.alloc_cluster, Tile.update_crossover,
    TileWires.count, Circuit.tile, tilesGet, tilesSet]
  unfold Circuit.modifyTile
  simp [tilesGet_cons, tilesSet, hne, hne2]

lemma can_place_wire_new (s e : IVec2) :
    Circuit.new.can_place_wire s e = true := by
  unfold Circuit.can_place_wire
  rw [List.all_eq_true]
  intro p _
  rfl

lemma axisAligned_ne (s e : IVec2) (h : AxisAligned s e) : s ≠ e := by
  rcases h with ⟨_, hy⟩ | ⟨_, hx⟩
  · exact fun hh => hy (hh ▸ rfl)
  · exact fun hh => hx (hh ▸ rfl)

/-- `place_wire` on the empty circuit: both pins are auto-placed and a
single `insert_wire(s, e)` runs on the two-pin state. -/
lemma place_wire_new (s e : IVec2) (h : AxisAligned s e) :
    Circuit.new.place_wire s e = (true, ((twoPin s e).insert_wire s e).2) := by
  have hne := axisAligned_ne s e h
  unfold Circuit.place_wire
  rw [can_place_wire_new]
  simp only [Bool.not_true, Bool.false_eq_true, if_false]
  rw [place_pin_on_empty s]
  simp only
  rw [place_pin_second s e hne]
  simp only
  have hfilter :
      (wireTiles s e).filter
        (fun pos => ((tilesGet (twoPin s e).tiles pos).bind
          (fun t => t.component)).isSome) = [s, e] := by
    refine wireTiles_filter_ends s e h _ ?_
    intro p _
    show ((tilesGet [(s, pinTile 0), (e, pinTile 1)] p).bind
      (fun t => t.component)).isSome = _
    rw [tilesGet_cons, tilesGet_cons, tilesGet_nil]
    by_cases h1 : s = p
    · rw [if_pos h1]
      simp [pinTile, h1.symm]
    · rw [if_neg h1]
      by_cases h2 : e = p
      · rw [if_pos h2]
        have hps : ¬ p = s := fun hh => h1 hh.symm
        simp [pinTile, hps, h2.symm]
      · rw [if_neg h2]
        have hps : ¬ p = s := fun hh => h1 hh.symm
        have hpe : ¬ p = e := fun hh => h2 hh.symm
        simp [hps, hpe]
  rw [hfilter]
  rfl

/-- The per-tile slot update of `insert_wire`'s tile loop. -/
def slotSetF (wst wsp : IVec2) (d : Direction) (w : Nat) (pos : IVec2)
    (t : Tile) : Tile :=
  let t1 := if pos ≠ wst then
    { t with wires := t.wires.setDir d.opposite (some w) } else t
  let t2 := if pos ≠ wsp then
    { t1 with wires := t1.wires.setDir d (some w) } else t1
  t2.update_crossover

/-- The tile map after the wire from `a` to `b` (handle 0) is written
over the two-pin map. -/
def wiredTiles (s e a b : IVec2) : List (IVec2 × Tile) :=
  (wireTiles a b).foldl
    (fun m pos => tilesSet m pos
      (slotSetF a b (wireDirection a b) 0 pos ((tilesGet m pos).getD Tile.empty)))
    [(s, pinTile 0), (e, pinTile 1)]

/-- The two-pin state after merging the second pin's cluster into the
first pin's cluster 0. -/
def mergedA (s e : IVec2) : Circuit :=
  { tiles := [(s, pinTile 0), (e, pinTile 1)],
    components := ⟨[(0, ⟨.pin 0, s, .East⟩), (1, ⟨.pin 0, e, .East⟩)], 2⟩,
    wires := ⟨[], 0⟩,
    simulation := ⟨2, [1], [false, false], [false, false], [[], []], [[], []],
      [0, 0]⟩ }

lemma clusterOfAux_nil_queue (c : Circuit) (fuel : Nat)
    (visited : List GraphNode) :
    c.clusterOfAux fuel visited [] = visited := by
  cases fuel <;> rfl

lemma merge_twoPin (s e : IVec2) (hne : s ≠ e) (d : Direction) :
    (twoPin s e).merge_clusters (GraphNode.component 0 d)
      (GraphNode.component 1 d.opposite) = mergedA s e := by
  have hne2 : e ≠ s := fun hh => hne hh.symm
  unfold Circuit.merge_clusters Circuit.cluster_id Circuit.cluster_of
    Circuit.bfsFuel twoPin mergedA
  simp only [Depot.get?, Depot.len, List.find?, pinTile]
  norm_num
  unfold Circuit.clusterOfAux Circuit.neighbors
  simp [Depot.get?, List.find?, Circuit.tile, tilesGet_cons, tilesGet_nil,
    pinTile, TileWires.empty, TileWires.get, Component.get_type, hne, hne2,
    Direction.rotate, Circuit.rewriteNode, Depot.set, Simulation.set_powered,
    Simulation.free_cluster, Simulation.isPowered, clusterOfAux_nil_queue]

/-- State A: the wire inserted with canonical order `(s, e)`. -/
def wiredA (s e : IVec2) : Circuit :=
  { tiles := wiredTiles s e s e,
    components := ⟨[(0, ⟨.pin 0, s, .East⟩), (1, ⟨.pin 0, e, .East⟩)], 2⟩,
    wires := ⟨[(0, ⟨s, e, .Pin, .Pin, 0⟩)], 1⟩,
    simulation := ⟨2, [1], [false, false], [false, false], [[], []], [[], []],
      [0, 0]⟩ }

lemma twoPin_tilesGet_start (s e : IVec2) :
    tilesGet (twoPin s e).tiles s = some (pinTile 0) := by
  show tilesGet [(s, pinTile 0), (e, pinTile 1)] s = some (pinTile 0)
  rw [tilesGet_cons]
  simp

lemma twoPin_tilesGet_stop (s e : IVec2) (hne : s ≠ e) :
    tilesGet (twoPin s e).tiles e = some (pinTile 1) := by
  show tilesGet [(s, pinTile 0), (e, pinTile 1)] e = some (pinTile 1)
  rw [tilesGet_cons, if_neg hne, tilesGet_cons]
  simp

lemma wireEndpointFold_some_some (c : Circuit) (n1 n2 : GraphNode) :
    c.wireEndpointFold (some n1) (some n2) =
      (some n1, c.merge_clusters n1 n2) := rfl

lemma resolveCluster_some (c : Circuit) (n : GraphNode) :
    c.resolveCluster (some n) = (c.cluster_id n, c) := rfl

lemma mergedA_cluster0 (s e : IVec2) (d : Direction) :
    (mergedA s e).cluster_id (GraphNode.component 0 d) = 0 := rfl

lemma twoPin_componentRec_start (s e : IVec2) :
    (twoPin s e).componentRec s =
      some ⟨ComponentData.pin 0, s, Direction.East⟩ := by
  unfold Circuit.componentRec Circuit.tile
  rw [twoPin_tilesGet_start]
  rfl

lemma twoPin_componentRec_stop (s e : IVec2) (hne : s ≠ e) :
    (twoPin s e).componentRec e =
      some ⟨ComponentData.pin 1, e, Direction.East⟩ := by
  unfold Circuit.componentRec Circuit.tile
  rw [twoPin_tilesGet_stop s e hne]
  rfl

lemma pin_connection_type (k : Nat) (p : IVec2) (o d : Direction) :
    Component.connection_type ⟨ComponentData.pin k, p, o⟩ d =
      WireConnection.Pin := rfl

lemma insert_canonical_se (s e : IVec2) (h : AxisAligned s e) :
    (twoPin s e).insert_wire_canonical s e = (true, wiredA s e) := by
  have hne := axisAligned_ne s e h
  unfold Circuit.insert_wire_canonical
  dsimp only
  simp only [Circuit.tile, twoPin_tilesGet_start s e,
    twoPin_tilesGet_stop s e hne, twoPin_componentRec_start s e,
    twoPin_componentRec_stop s e hne, pin_connection_type,
    Option.some_bind, Option.map_some', pinTile, TileWires.empty,
    TileWires.asArray, List.filterMap, id_eq, List.any_nil,
    Bool.false_eq_true, if_false]
  simp only [wireEndpointFold_some_some, merge_twoPin s e hne,
    resolveCluster_some, mergedA_cluster0]
  simp only [mergedA, Depot.insert, List.nil_append]
  rw [foldl_modifyTile_eq]
  rfl

/-- The two-pin state after merging the first pin's cluster into the
second pin's cluster 1 (the swapped canonical order). -/
def mergedB (s e : IVec2) : Circuit :=
  { tiles := [(s, pinTile 0), (e, pinTile 1)],
    components := ⟨[(0, ⟨.pin 1, s, .East⟩), (1, ⟨.pin 1, e, .East⟩)], 2⟩,
    wires := ⟨[], 0⟩,
    simulation := ⟨2, [0], [false, false], [false, false], [[], []], [[], []],
      [0, 0]⟩ }

lemma merge_twoPin_rev (s e : IVec2) (hne : s ≠ e) (d : Direction) :
    (twoPin s e).merge_clusters (GraphNode.component 1 d)
      (GraphNode.component 0 d.opposite) = mergedB s e := by
  have hne2 : e ≠ s := fun hh => hne hh.symm
  unfold Circuit.merge_clusters Circuit.cluster_id Circuit.cluster_of
    Circuit.bfsFuel twoPin mergedB
  simp only [Depot.get?, Depot.len, List.find?, pinTile]
  norm_num
  unfold Circuit.clusterOfAux Circuit.neighbors
  simp [Depot.get?, List.find?, Circuit.tile, tilesGet_cons, tilesGet_nil,
    pinTile, TileWires.empty, TileWires.get, Component.get_type, hne, hne2,
    Direction.rotate, Circuit.rewriteNode, Depot.set, Simulation.set_powered,
    Simulation.free_cluster, Simulation.isPowered, clusterOfAux_nil_queue]

/-- State B: the wire inserted with the swapped canonical order `(e, s)`. -/
def wiredB (s e : IVec2) : Circuit :=
  { tiles := wiredTiles s e e s,
    components := ⟨[(0, ⟨.pin 1, s, .East⟩), (1, ⟨.pin 1, e, .East⟩)], 2⟩,
    wires := ⟨[(0, ⟨e, s, .Pin, .Pin, 1⟩)], 1⟩,
    simulation := ⟨2, [0], [false, false], [false, false], [[], []], [[], []],
      [0, 0]⟩ }

lemma mergedB_cluster1 (s e : IVec2) (d : Direction) :
    (mergedB s e).cluster_id (GraphNode.component 1 d) = 1 := rfl

lemma insert_canonical_es (s e : IVec2) (h : AxisAligned s e) :
    (twoPin s e).insert_wire_canonical e s = (true, wiredB s e) := by
  have hne := axisAligned_ne s e h
  have hne2 : e ≠ s := fun hh => hne hh.symm
  unfold Circuit.insert_wire_canonical
  dsimp only
  simp only [Circuit.tile, twoPin_tilesGet_start s e,
    twoPin_tilesGet_stop s e hne, twoPin_componentRec_start s e,
    twoPin_componentRec_stop s e hne, pin_connection_type,
    Option.some_bind, Option.map_some', pinTile, TileWires.empty,
    TileWires.asArray, List.filterMap, id_eq, List.any_nil,
    Bool.false_eq_true, if_false]
  simp only [wireEndpointFold_some_some, merge_twoPin_rev s e hne,
    resolveCluster_some, mergedB_cluster1]
  simp only [mergedB, Depot.insert, List.nil_append]
  rw [foldl_modifyTile_eq]
  rfl

/-! ## Tile-level evaluation helpers for the deletion pipeline -/

lemma update_crossover_component (k : Nat) (cr : Bool) (W : TileWires) :
    Tile.update_crossover ⟨some k, cr, W⟩ = ⟨some k, false, W⟩ := by
  simp [Tile.update_crossover]

lemma update_crossover_single (d : Direction) (w : Nat) (cr : Bool) :
    Tile.update_crossover ⟨none, cr, TileWires.empty.setDir d (some w)⟩ =
      ⟨none, false, TileWires.empty.setDir d (some w)⟩ := by
  cases d <;>
    simp [Tile.update_crossover, TileWires.count, TileWires.setDir,
      TileWires.empty]

lemma update_crossover_both (d : Direction) (w : Nat) (cr : Bool) :
    Tile.update_crossover
        ⟨none, cr,
          (TileWires.empty.setDir d.opposite (some w)).setDir d (some w)⟩ =
      ⟨none, false,
        (TileWires.empty.setDir d.opposite (some w)).setDir d (some w)⟩ := by
  cases d <;>
    simp [Tile.update_crossover, TileWires.count, TileWires.setDir,
      TileWires.empty, Direction.opposite, Direction.rotate]

lemma update_crossover_none_empty (cr : Bool) :
    Tile.update_crossover ⟨none, cr, TileWires.empty⟩ = Tile.empty := by
  simp [Tile.update_crossover, TileWires.count, TileWires.empty, Tile.empty]

lemma setDir_clear_single (d : Direction) (w : Nat) :
    (TileWires.empty.setDir d (some w)).setDir d none = TileWires.empty := by
  cases d <;> rfl

lemma setDir_clear_both (d : Direction) (w : Nat) :
    (((TileWires.empty.setDir d.opposite (some w)).setDir d (some w)).setDir
        d.opposite none).setDir d none = TileWires.empty := by
  cases d <;> rfl

lemma slotSetF_at_start (a b : IVec2) (hne : a ≠ b) (d : Direction) (w : Nat)
    (t : Tile) :
    slotSetF a b d w a t =
      Tile.update_crossover { t with wires := t.wires.setDir d (some w) } := by
  simp only [slotSetF]
  rw [if_neg (fun hh : a ≠ a => hh rfl), if_pos hne]

lemma slotSetF_at_stop (a b : IVec2) (hne : b ≠ a) (d : Direction) (w : Nat)
    (t : Tile) :
    slotSetF a b d w b t =
      Tile.update_crossover
        { t with wires := t.wires.setDir d.opposite (some w) } := by
  simp only [slotSetF]
  rw [if_pos hne, if_neg (fun hh : b ≠ b => hh rfl)]

lemma slotSetF_at_mid (a b p : IVec2) (hpa : p ≠ a) (hpb : p ≠ b)
    (d : Direction) (w : Nat) (t : Tile) :
    slotSetF a b d w p t =
      Tile.update_crossover
        { t with
          wires := (t.wires.setDir d.opposite (some w)).setDir d (some w) } := by
  simp only [slotSetF]
  rw [if_pos hpa, if_pos hpb]

/-- The per-tile slot update of `remove_wire`'s tile loop. -/
def slotClearF (wst wsp : IVec2) (d : Direction) (pos : IVec2) (t : Tile) :
    Tile :=
  let t1 := if pos ≠ wst then
    { t with wires := t.wires.setDir d.opposite none } else t
  let t2 := if pos ≠ wsp then
    { t1 with wires := t1.wires.setDir d none } else t1
  t2.update_crossover

lemma slotClearF_at_start (a b : IVec2) (hne : a ≠ b) (d : Direction)
    (t : Tile) :
    slotClearF a b d a t =
      Tile.update_crossover { t with wires := t.wires.setDir d none } := by
  simp only [slotClearF]
  rw [if_neg (fun hh : a ≠ a => hh rfl), if_pos hne]

lemma slotClearF_at_stop (a b : IVec2) (hne : b ≠ a) (d : Direction)
    (t : Tile) :
    slotClearF a b d b t =
      Tile.update_crossover
        { t with wires := t.wires.setDir d.opposite none } := by
  simp only [slotClearF]
  rw [if_pos hne, if_neg (fun hh : b ≠ b => hh rfl)]

lemma slotClearF_at_mid (a b p : IVec2) (hpa : p ≠ a) (hpb : p ≠ b)
    (d : Direction) (t : Tile) :
    slotClearF a b d p t =
      Tile.update_crossover
        { t with wires := (t.wires.setDir d.opposite none).setDir d none } := by
  simp only [slotClearF]
  rw [if_pos hpa, if_pos hpb]

/-- The tile map after `remove_wire`'s loop clears the slots of the wire
from `a` to `b`. -/
def clearedTiles (a b : IVec2) (m : List (IVec2 × Tile)) :
    List (IVec2 × Tile) :=
  (wireTiles a b).foldl
    (fun m2 pos => tilesSet m2 pos
      (slotClearF a b (wireDirection a b) pos
        ((tilesGet m2 pos).getD Tile.empty)))
    m

lemma tilesGet_set_isSome (m : List (IVec2 × Tile)) (p q : IVec2) (t : Tile)
    (h : (tilesGet m q).isSome = true) :
    (tilesGet (tilesSet m p t) q).isSome = true := by
  by_cases hq : q = p
  · subst hq
    rw [tilesGet_set_self]
    rfl
  · rw [tilesGet_set_ne m p q t hq]
    exact h

/-- A fold of `modifyTileP` steps over positions that are all present
only rewrites the tile map, exactly like the `modifyTile` fold. -/
lemma foldl_modifyTileP_eq (L : List IVec2) (f : IVec2 → Tile → Tile) :
    ∀ c : Circuit, (∀ p ∈ L, (tilesGet c.tiles p).isSome = true) →
      L.foldl (fun acc pos => acc.modifyTileP pos (f pos)) c =
        { c with tiles := (L.foldl
            (fun m pos => tilesSet m pos (f pos ((tilesGet m pos).getD Tile.empty)))
            c.tiles) } := by
  induction L with
  | nil =>
    intro c _
    rfl
  | cons p ps ih =>
    intro c hpres
    rw [List.foldl_cons, List.foldl_cons]
    obtain ⟨t, ht⟩ :=
      Option.isSome_iff_exists.1 (hpres p (List.mem_cons_self p ps))
    have hstep : c.modifyTileP p (f p) =
        { c with tiles :=
            tilesSet c.tiles p (f p ((tilesGet c.tiles p).getD Tile.empty)) } := by
      unfold Circuit.modifyTileP
      rw [ht]
      rfl
    rw [hstep,
      ih _ (fun q hq =>
        tilesGet_set_isSome _ _ _ _ (hpres q (List.mem_cons_of_mem p hq)))]

/-- Key list of a tile map. -/
def tileKeys (m : List (IVec2 × Tile)) : List IVec2 := m.map Prod.fst

lemma tileKeys_mem_iff (m : List (IVec2 × Tile)) (p : IVec2) :
    (m.find? (fun q => q.1 = p)).isSome = true ↔ p ∈ tileKeys m := by
  induction m with
  | nil => simp [tileKeys]
  | cons a m ih =>
    rw [List.find?_cons]
    by_cases ha : a.1 = p
    · simp [tileKeys, ha]
    · simp only [tileKeys, List.map_cons, List.mem_cons, decide_eq_true_eq]
      rw [show decide (a.1 = p) = false from by simpa using ha]
      constructor
      · intro hh
        exact Or.inr ((ih.1 hh))
      · intro hh
        rcases hh with hh | hh
        · exact absurd hh.symm ha
        · exact ih.2 hh

lemma tileKeys_tilesSet_present (m : List (IVec2 × Tile)) (p : IVec2)
    (t : Tile) (h : (m.find? (fun q => q.1 = p)).isSome = true) :
    tileKeys (tilesSet m p t) = tileKeys m := by
  unfold tilesSet
  rw [if_pos h]
  unfold tileKeys
  rw [List.map_map]
  refine List.map_congr_left ?_
  intro q _
  by_cases hqp : q.1 = p
  · simp [Function.comp, hqp]
  · simp [Function.comp, hqp]

lemma tileKeys_tilesSet_absent (m : List (IVec2 × Tile)) (p : IVec2)
    (t : Tile) (h : ¬ (m.find? (fun q => q.1 = p)).isSome = true) :
    tileKeys (tilesSet m p t) = tileKeys m ++ [p] := by
  unfold tilesSet
  rw [if_neg h]
  unfold tileKeys
  rw [List.map_append]
  rfl

/-- Keys of the generic tilesSet fold: nodup is preserved, and every key
comes from the base map or the position list. -/
lemma tileKeys_fold_set (L : List IVec2) (F : IVec2 → Tile → Tile) :
    ∀ m0 : List (IVec2 × Tile), (tileKeys m0).Nodup →
      (tileKeys (L.foldl
        (fun m pos => tilesSet m pos (F pos ((tilesGet m pos).getD Tile.empty)))
        m0)).Nodup ∧
      ∀ q, q ∈ tileKeys (L.foldl
        (fun m pos => tilesSet m pos (F pos ((tilesGet m pos).getD Tile.empty)))
        m0) → q ∈ tileKeys m0 ∨ q ∈ L := by
  induction L with
  | nil =>
    intro m0 h
    exact ⟨h, fun q hq => Or.inl hq⟩
  | cons p ps ih =>
    intro m0 h
    rw [List.foldl_cons]
    by_cases hf : (m0.find? (fun q => q.1 = p)).isSome = true
    · have hk := tileKeys_tilesSet_present m0 p
        (F p ((tilesGet m0 p).getD Tile.empty)) hf
      obtain ⟨h1, h2⟩ := ih _ (hk ▸ h)
      refine ⟨h1, fun q hq => ?_⟩
      rcases h2 q hq with hh | hh
      · exact Or.inl (hk ▸ hh)
      · exact Or.inr (List.mem_cons_of_mem _ hh)
    · have hk := tileKeys_tilesSet_absent m0 p
        (F p ((tilesGet m0 p).getD Tile.empty)) hf
      have hnp : p ∉ tileKeys m0 := fun hmem => hf ((tileKeys_mem_iff m0 p).2 hmem)
      have hnd1 : (tileKeys (tilesSet m0 p
          (F p ((tilesGet m0 p).getD Tile.empty)))).Nodup := by
        rw [hk]
        simp [List.nodup_append, h, hnp]
      obtain ⟨h1, h2⟩ := ih _ hnd1
      refine ⟨h1, fun q hq => ?_⟩
      rcases h2 q hq with hh | hh
      · rw [hk] at hh
        rcases List.mem_append.1 hh with h3 | h3
        · exact Or.inl h3
        · simp only [List.mem_singleton] at h3
          exact Or.inr (h3 ▸ List.mem_cons_self p ps)
      · exact Or.inr (List.mem_cons_of_mem _ hh)

/-- In a map with distinct keys, every entry is what lookup returns. -/
lemma tilesGet_of_mem (m : List (IVec2 × Tile)) (hnd : (tileKeys m).Nodup)
    (pr : IVec2 × Tile) (hmem : pr ∈ m) : tilesGet m pr.1 = some pr.2 := by
  induction m with
  | nil => cases hmem
  | cons a m ih =>
    rw [tilesGet_cons]
    rcases List.mem_cons.1 hmem with h1 | h1
    · subst h1
      rw [if_pos rfl]
    · have hne : ¬ a.1 = pr.1 := by
        intro hh
        have hmemk : pr.1 ∈ tileKeys m := List.mem_map.2 ⟨pr, h1, rfl⟩
        exact (List.nodup_cons.1 hnd).1 (hh ▸ hmemk)
      rw [if_neg hne]
      exact ih (List.nodup_cons.1 hnd).2 h1

/-! ## Named tiles of the wired state -/

/-- The tile of a pin with a single wire slot. -/
def pinWireTile (k : Nat) (d : Direction) (w : Nat) : Tile :=
  ⟨some k, false, TileWires.empty.setDir d (some w)⟩

/-- An interior wire tile: both slots of the axis point at the wire. -/
def midWireTile (d : Direction) (w : Nat) : Tile :=
  ⟨none, false, (TileWires.empty.setDir d.opposite (some w)).setDir d (some w)⟩

/-- A former pin tile whose component was removed but whose wire slot
remains. -/
def clearedPinTile (d : Direction) (w : Nat) : Tile :=
  ⟨none, false, TileWires.empty.setDir d (some w)⟩

lemma pin_neighbor_list (d : Direction) (w : Nat) :
    [Relative.Same, Relative.Right, Relative.Opposite, Relative.Left].filterMap
      (fun rel => (TileWires.empty.setDir d (some w)).get
        (Direction.East.rotate rel)) = [w] := by
  cases d <;> rfl

lemma dirs_filterMap_single (d : Direction) (w : Nat) :
    [Direction.North, Direction.East, Direction.South,
      Direction.West].filterMap
      (fun dd => (clearedPinTile d w).wires.get dd) = [w] := by
  cases d <;> rfl

lemma wiredTiles_get_out (s e a b q : IVec2) (hab : AxisAligned a b)
    (hq : q ∉ wireTiles a b) (hqs : ¬ s = q) (hqe : ¬ e = q) :
    tilesGet (wiredTiles s e a b) q = none := by
  unfold wiredTiles
  rw [tilesGet_fold_set _ _ _ (wireTiles_nodup a b hab) q, if_neg hq,
    tilesGet_cons, if_neg hqs, tilesGet_cons, if_neg hqe, tilesGet_nil]

/-! ## Pointwise tiles: order (s, e) -/

lemma wiredA_get_s (s e : IVec2) (h : AxisAligned s e) :
    tilesGet (wiredA s e).tiles s =
      some (pinWireTile 0 (wireDirection s e) 0) := by
  have hne := axisAligned_ne s e h
  show tilesGet (wiredTiles s e s e) s = _
  unfold wiredTiles
  rw [tilesGet_fold_set _ _ _ (wireTiles_nodup s e h) s,
    if_pos (start_mem_wireTiles s e)]
  have hbase : tilesGet [(s, pinTile 0), (e, pinTile 1)] s = some (pinTile 0) := by
    rw [tilesGet_cons, if_pos rfl]
  rw [hbase, Option.getD_some, slotSetF_at_start s e hne]
  exact congrArg some (update_crossover_component 0 false _)

lemma wiredA_get_e (s e : IVec2) (h : AxisAligned s e) :
    tilesGet (wiredA s e).tiles e =
      some (pinWireTile 1 (wireDirection s e).opposite 0) := by
  have hne := axisAligned_ne s e h
  have hne2 : e ≠ s := fun hh => hne hh.symm
  show tilesGet (wiredTiles s e s e) e = _
  unfold wiredTiles
  rw [tilesGet_fold_set _ _ _ (wireTiles_nodup s e h) e,
    if_pos (stop_mem_wireTiles s e h)]
  have hbase : tilesGet [(s, pinTile 0), (e, pinTile 1)] e = some (pinTile 1) := by
    rw [tilesGet_cons, if_neg hne, tilesGet_cons, if_pos rfl]
  rw [hbase, Option.getD_some, slotSetF_at_stop s e hne2]
  exact congrArg some (update_crossover_component 1 false _)

lemma wiredA_get_mid (s e p : IVec2) (h : AxisAligned s e)
    (hp : p ∈ wireTiles s e) (hps : p ≠ s) (hpe : p ≠ e) :
    tilesGet (wiredA s e).tiles p =
      some (midWireTile (wireDirection s e) 0) := by
  have hsp : ¬ s = p := fun hh => hps hh.symm
  have hep : ¬ e = p := fun hh => hpe hh.symm
  show tilesGet (wiredTiles s e s e) p = _
  unfold wiredTiles
  rw [tilesGet_fold_set _ _ _ (wireTiles_nodup s e h) p, if_pos hp]
  have hbase : tilesGet [(s, pinTile 0), (e, pinTile 1)] p = none := by
    rw [tilesGet_cons, if_neg hsp, tilesGet_cons, if_neg hep, tilesGet_nil]
  rw [hbase, Option.getD_none, slotSetF_at_mid s e p hps hpe]
  exact congrArg some (update_crossover_both (wireDirection s e) 0 false)

/-- State after the pin at `s` is removed from `wiredA` (its wire slot
and the wire itself remain). -/
def wiredA1 (s e : IVec2) : Circuit :=
  { tiles := tilesSet (wiredTiles s e s e) s
      (clearedPinTile (wireDirection s e) 0),
    components := ⟨[(1, ⟨.pin 0, e, .East⟩)], 2⟩,
    wires := ⟨[(0, ⟨s, e, .Pin, .Pin, 0⟩)], 1⟩,
    simulation := ⟨2, [1], [false, false], [false, false], [[], []], [[], []],
      [0, 0]⟩ }

lemma wiredA1_get_s (s e : IVec2) :
    tilesGet (wiredA1 s e).tiles s =
      some (clearedPinTile (wireDirection s e) 0) := by
  show tilesGet (tilesSet (wiredTiles s e s e) s _) s = _
  exact tilesGet_set_self _ _ _

lemma wiredA1_get_e (s e : IVec2) (h : AxisAligned s e) :
    tilesGet (wiredA1 s e).tiles e =
      some (pinWireTile 1 (wireDirection s e).opposite 0) := by
  have hne2 : e ≠ s := fun hh => axisAligned_ne s e h hh.symm
  show tilesGet (tilesSet (wiredTiles s e s e) s _) e = _
  rw [tilesGet_set_ne _ _ _ _ hne2]
  exact wiredA_get_e s e h

lemma wiredA1_get_mid (s e p : IVec2) (h : AxisAligned s e)
    (hp : p ∈ wireTiles s e) (hps : p ≠ s) (hpe : p ≠ e) :
    tilesGet (wiredA1 s e).tiles p =
      some (midWireTile (wireDirection s e) 0) := by
  show tilesGet (tilesSet (wiredTiles s e s e) s _) p = _
  rw [tilesGet_set_ne _ _ _ _ hps]
  exact wiredA_get_mid s e p h hp hps hpe

lemma wiredA1_pres (s e : IVec2) (h : AxisAligned s e) :
    ∀ p ∈ wireTiles s e, (tilesGet (wiredA1 s e).tiles p).isSome = true := by
  intro p hp
  by_cases hps : p = s
  · subst hps
    rw [wiredA1_get_s]
    rfl
  · by_cases hpe : p = e
    · rw [hpe, wiredA1_get_e s e h]
      rfl
    · rw [wiredA1_get_mid s e p h hp hps hpe]
      rfl

/-! ## Evaluating `remove_wire` against explicit hypotheses -/

/-- `remove_wire` on a live wire that still has a neighbor and whose
tiles are all present: no cluster is freed and the tile loop is the
`clearedTiles` map rewrite. -/
lemma remove_wire_eval (c : Circuit) (wid : Nat) (w : Wire)
    (hw : c.wires.get? wid = some w)
    (hnb : c.has_neighbors (GraphNode.wire wid) = true)
    (hpres : ∀ p ∈ wireTiles w.start w.stop,
      (tilesGet c.tiles p).isSome = true) :
    c.remove_wire wid = some (w,
      match (tilesGet (clearedTiles w.start w.stop c.tiles) w.start).bind
              (fun t => t.component),
            (tilesGet (clearedTiles w.start w.stop c.tiles) w.stop).bind
              (fun t => t.component) with
      | some s0, some e0 =>
        Circuit.split_clusters
          { c with
              wires := c.wires.erase wid
              tiles := clearedTiles w.start w.stop c.tiles }
          (GraphNode.component s0 w.direction)
          (GraphNode.component e0 w.direction.opposite)
      | _, _ =>
        { c with
            wires := c.wires.erase wid
            tiles := clearedTiles w.start w.stop c.tiles }) := by
  unfold Circuit.remove_wire
  rw [hw]
  dsimp only
  rw [hnb]
  simp only [Bool.not_true, Bool.false_eq_true, if_false]
  rw [show w.tiles = wireTiles w.start w.stop from rfl]
  rw [foldl_modifyTileP_eq (wireTiles w.start w.stop) _
    { c with wires := c.wires.erase wid } hpres]
  dsimp only [Circuit.tile]
  rfl

/-- State after `delete_all_at s` on `wiredA`: pin 0 and the wire are
gone, pin 1 remains at `e`. -/
def stateA2 (s e : IVec2) : Circuit :=
  { tiles := clearedTiles s e (wiredA1 s e).tiles,
    components := ⟨[(1, ⟨.pin 0, e, .East⟩)], 2⟩,
    wires := ⟨[], 1⟩,
    simulation := ⟨2, [1], [false, false], [false, false], [[], []], [[], []],
      [0, 0]⟩ }

lemma clearedA_get_s (s e : IVec2) (h : AxisAligned s e) :
    tilesGet (clearedTiles s e (wiredA1 s e).tiles) s = some Tile.empty := by
  have hne := axisAligned_ne s e h
  unfold clearedTiles
  rw [tilesGet_fold_set _ _ _ (wireTiles_nodup s e h) s,
    if_pos (start_mem_wireTiles s e)]
  rw [wiredA1_get_s s e]
  rw [show (some (clearedPinTile (wireDirection s e) 0)).getD Tile.empty
      = clearedPinTile (wireDirection s e) 0 from rfl]
  rw [slotClearF_at_start s e hne]
  rw [show (clearedPinTile (wireDirection s e) 0).wires.setDir
      (wireDirection s e) none = TileWires.empty from setDir_clear_single _ 0]
  exact congrArg some (update_crossover_none_empty false)

lemma clearedA_get_e (s e : IVec2) (h : AxisAligned s e) :
    tilesGet (clearedTiles s e (wiredA1 s e).tiles) e = some (pinTile 1) := by
  have hne2 : e ≠ s := fun hh => axisAligned_ne s e h hh.symm
  unfold clearedTiles
  rw [tilesGet_fold_set _ _ _ (wireTiles_nodup s e h) e,
    if_pos (stop_mem_wireTiles s e h)]
  rw [wiredA1_get_e s e h]
  rw [show (some (pinWireTile 1 (wireDirection s e).opposite 0)).getD Tile.empty
      = pinWireTile 1 (wireDirection s e).opposite 0 from rfl]
  rw [slotClearF_at_stop s e hne2]
  rw [show (pinWireTile 1 (wireDirection s e).opposite 0).wires.setDir
      (wireDirection s e).opposite none = TileWires.empty from
      setDir_clear_single _ 0]
  exact congrArg some (update_crossover_component 1 false TileWires.empty)

lemma clearedA_get_mid (s e p : IVec2) (h : AxisAligned s e)
    (hp : p ∈ wireTiles s e) (hps : p ≠ s) (hpe : p ≠ e) :
    tilesGet (clearedTiles s e (wiredA1 s e).tiles) p = some Tile.empty := by
  unfold clearedTiles
  rw [tilesGet_fold_set _ _ _ (wireTiles_nodup s e h) p, if_pos hp]
  rw [wiredA1_get_mid s e p h hp hps hpe]
  rw [show (some (midWireTile (wireDirection s e) 0)).getD Tile.empty
      = midWireTile (wireDirection s e) 0 from rfl]
  rw [slotClearF_at_mid s e p hps hpe]
  rw [show ((midWireTile (wireDirection s e) 0).wires.setDir
      (wireDirection s e).opposite none).setDir (wireDirection s e) none
      = TileWires.empty from setDir_clear_both _ 0]
  exact congrArg some (update_crossover_none_empty false)

/-! ## The deletion steps: order (s, e) -/

lemma wiredA_pin0_has_neighbors (s e : IVec2) (h : AxisAligned s e) :
    (wiredA s e).has_neighbors (GraphNode.component 0 Direction.North)
      = true := by
  unfold Circuit.has_neighbors Circuit.neighbors
  dsimp only
  rw [show (wiredA s e).components.get? 0 =
    some ⟨ComponentData.pin 0, s, Direction.East⟩ from rfl]
  dsimp only [Component.get_type]
  rw [show Circuit.tile (wiredA s e) s =
    some (pinWireTile 0 (wireDirection s e) 0) from wiredA_get_s s e h]
  dsimp only [Option.getD_some, pinWireTile]
  rw [pin_neighbor_list]
  rfl

lemma removeComponent0_wiredA (s e : IVec2) (h : AxisAligned s e) :
    (wiredA s e).removeComponentById 0 = wiredA1 s e := by
  unfold Circuit.removeComponentById Circuit.remove_component
  rw [show (wiredA s e).components.get? 0 =
    some ⟨ComponentData.pin 0, s, Direction.East⟩ from rfl]
  dsimp only
  rw [wiredA_pin0_has_neighbors s e h]
  simp only [Bool.not_true, Bool.false_eq_true, if_false]
  unfold Circuit.modifyTileP
  dsimp only
  rw [wiredA_get_s s e h]
  dsimp only
  rw [show Tile.update_crossover
      { pinWireTile 0 (wireDirection s e) 0 with component := none } =
      clearedPinTile (wireDirection s e) 0 from
      update_crossover_single (wireDirection s e) 0 false]
  unfold Circuit.split_all
  dsimp only [Circuit.tile]
  rw [tilesGet_set_self]
  dsimp only [Option.getD_some]
  rw [dirs_filterMap_single]
  rfl

lemma delete_wiredA_s (s e : IVec2) (h : AxisAligned s e) :
    (wiredA s e).delete_all_at s =
      ((wiredA s e).removeComponentById 0).removeWireById 0 := by
  unfold Circuit.delete_all_at
  rw [wiredA_get_s s e h]
  dsimp only [pinWireTile]
  cases hd : wireDirection s e <;>
    simp [TileWires.setDir, TileWires.empty]

lemma wiredA1_wire0_has_neighbors (s e : IVec2) (h : AxisAligned s e) :
    (wiredA1 s e).has_neighbors (GraphNode.wire 0) = true := by
  unfold Circuit.has_neighbors Circuit.neighbors
  dsimp only
  rw [show (wiredA1 s e).wires.get? 0 =
    some (⟨s, e, .Pin, .Pin, 0⟩ : Wire) from rfl]
  dsimp only [Circuit.tile]
  rw [wiredA1_get_s s e, wiredA1_get_e s e h]
  rfl

lemma removeWire0_wiredA1 (s e : IVec2) (h : AxisAligned s e) :
    (wiredA1 s e).removeWireById 0 = stateA2 s e := by
  unfold Circuit.removeWireById
  rw [remove_wire_eval (wiredA1 s e) 0 ⟨s, e, .Pin, .Pin, 0⟩ rfl
    (wiredA1_wire0_has_neighbors s e h) (wiredA1_pres s e h)]
  dsimp only
  rw [clearedA_get_s s e h, clearedA_get_e s e h]
  rfl

lemma delete1A (s e : IVec2) (h : AxisAligned s e) :
    (wiredA s e).delete_all_at s = stateA2 s e := by
  rw [delete_wiredA_s s e h, removeComponent0_wiredA s e h,
    removeWire0_wiredA1 s e h]

/-- Final state of the round trip in canonical order. -/
def finalA (s e : IVec2) : Circuit :=
  { tiles := tilesSet (stateA2 s e).tiles e Tile.empty,
    components := ⟨[], 2⟩,
    wires := ⟨[], 1⟩,
    simulation := ⟨2, [1, 0], [false, false], [false, false], [[], []],
      [[], []], [0, 0]⟩ }

lemma stateA2_pin1_no_neighbors (s e : IVec2) (h : AxisAligned s e) :
    (stateA2 s e).has_neighbors (GraphNode.component 1 Direction.North)
      = false := by
  unfold Circuit.has_neighbors Circuit.neighbors
  dsimp only
  rw [show (stateA2 s e).components.get? 1 =
    some ⟨ComponentData.pin 0, e, Direction.East⟩ from rfl]
  dsimp only [Component.get_type, Circuit.tile]
  rw [show tilesGet (stateA2 s e).tiles e = some (pinTile 1) from
    clearedA_get_e s e h]
  rfl

lemma removeComponent1_stateA2 (s e : IVec2) (h : AxisAligned s e) :
    (stateA2 s e).removeComponentById 1 = finalA s e := by
  unfold Circuit.removeComponentById Circuit.remove_component
  rw [show (stateA2 s e).components.get? 1 =
    some ⟨ComponentData.pin 0, e, Direction.East⟩ from rfl]
  dsimp only
  rw [stateA2_pin1_no_neighbors s e h]
  simp only [Bool.not_false, if_true]
  unfold Circuit.modifyTileP
  dsimp only
  rw [show tilesGet (stateA2 s e).tiles e = some (pinTile 1) from
    clearedA_get_e s e h]
  dsimp only
  rw [show Tile.update_crossover { pinTile 1 with component := none } =
    Tile.empty from update_crossover_none_empty false]
  unfold Circuit.split_all
  dsimp only [Circuit.tile]
  rw [tilesGet_set_self]
  rfl

lemma delete_stateA2_e (s e : IVec2) (h : AxisAligned s e) :
    (stateA2 s e).delete_all_at e = (stateA2 s e).removeComponentById 1 := by
  unfold Circuit.delete_all_at
  rw [show tilesGet (stateA2 s e).tiles e = some (pinTile 1) from
    clearedA_get_e s e h]
  rfl

lemma roundtripA (s e : IVec2) (h : AxisAligned s e) :
    ((wiredA s e).delete_all_at s).delete_all_at e = finalA s e := by
  rw [delete1A s e h, delete_stateA2_e s e h, removeComponent1_stateA2 s e h]

/-! ## Pointwise tiles: swapped canonical order (e, s) -/

lemma wiredB_get_s (s e : IVec2) (h : AxisAligned s e) :
    tilesGet (wiredB s e).tiles s =
      some (pinWireTile 0 (wireDirection e s).opposite 0) := by
  have hne := axisAligned_ne s e h
  have hsym := axisAligned_symm s e h
  show tilesGet (wiredTiles s e e s) s = _
  unfold wiredTiles
  rw [tilesGet_fold_set _ _ _ (wireTiles_nodup e s hsym) s,
    if_pos (stop_mem_wireTiles e s hsym)]
  have hbase : tilesGet [(s, pinTile 0), (e, pinTile 1)] s = some (pinTile 0) := by
    rw [tilesGet_cons, if_pos rfl]
  rw [hbase, Option.getD_some, slotSetF_at_stop e s hne]
  exact congrArg some (update_crossover_component 0 false _)

lemma wiredB_get_e (s e : IVec2) (h : AxisAligned s e) :
    tilesGet (wiredB s e).tiles e =
      some (pinWireTile 1 (wireDirection e s) 0) := by
  have hne := axisAligned_ne s e h
  have hne2 : e ≠ s := fun hh => hne hh.symm
  have hsym := axisAligned_symm s e h
  show tilesGet (wiredTiles s e e s) e = _
  unfold wiredTiles
  rw [tilesGet_fold_set _ _ _ (wireTiles_nodup e s hsym) e,
    if_pos (start_mem_wireTiles e s)]
  have hbase : tilesGet [(s, pinTile 0), (e, pinTile 1)] e = some (pinTile 1) := by
    rw [tilesGet_cons, if_neg hne, tilesGet_cons, if_pos rfl]
  rw [hbase, Option.getD_some, slotSetF_at_start e s hne2]
  exact congrArg some (update_crossover_component 1 false _)

lemma wiredB_get_mid (s e p : IVec2) (h : AxisAligned s e)
    (hp : p ∈ wireTiles e s) (hps : p ≠ s) (hpe : p ≠ e) :
    tilesGet (wiredB s e).tiles p =
      some (midWireTile (wireDirection e s) 0) := by
  have hsp : ¬ s = p := fun hh => hps hh.symm
  have hep : ¬ e = p := fun hh => hpe hh.symm
  have hsym := axisAligned_symm s e h
  show tilesGet (wiredTiles s e e s) p = _
  unfold wiredTiles
  rw [tilesGet_fold_set _ _ _ (wireTiles_nodup e s hsym) p, if_pos hp]
  have hbase : tilesGet [(s, pinTile 0), (e, pinTile 1)] p = none := by
    rw [tilesGet_cons, if_neg hsp, tilesGet_cons, if_neg hep, tilesGet_nil]
  rw [hbase, Option.getD_none, slotSetF_at_mid e s p hpe hps]
  exact congrArg some (update_crossover_both (wireDirection e s) 0 false)

/-- State after the pin at `s` is removed from `wiredB`. -/
def wiredB1 (s e : IVec2) : Circuit :=
  { tiles := tilesSet (wiredTiles s e e s) s
      (clearedPinTile (wireDirection e s).opposite 0),
    components := ⟨[(1, ⟨.pin 1, e, .East⟩)], 2⟩,
    wires := ⟨[(0, ⟨e, s, .Pin, .Pin, 1⟩)], 1⟩,
    simulation := ⟨2, [0], [false, false], [false, false], [[], []], [[], []],
      [0, 0]⟩ }

lemma wiredB1_get_s (s e : IVec2) :
    tilesGet (wiredB1 s e).tiles s =
      some (clearedPinTile (wireDirection e s).opposite 0) := by
  show tilesGet (tilesSet (wiredTiles s e e s) s _) s = _
  exact tilesGet_set_self _ _ _

lemma wiredB1_get_e (s e : IVec2) (h : AxisAligned s e) :
    tilesGet (wiredB1 s e).tiles e =
      some (pinWireTile 1 (wireDirection e s) 0) := by
  have hne2 : e ≠ s := fun hh => axisAligned_ne s e h hh.symm
  show tilesGet (tilesSet (wiredTiles s e e s) s _) e = _
  rw [tilesGet_set_ne _ _ _ _ hne2]
  exact wiredB_get_e s e h

lemma wiredB1_get_mid (s e p : IVec2) (h : AxisAligned s e)
    (hp : p ∈ wireTiles e s) (hps : p ≠ s) (hpe : p ≠ e) :
    tilesGet (wiredB1 s e).tiles p =
      some (midWireTile (wireDirection e s) 0) := by
  show tilesGet (tilesSet (wiredTiles s e e s) s _) p = _
  rw [tilesGet_set_ne _ _ _ _ hps]
  exact wiredB_get_mid s e p h hp hps hpe

lemma wiredB1_pres (s e : IVec2) (h : AxisAligned s e) :
    ∀ p ∈ wireTiles e s, (tilesGet (wiredB1 s e).tiles p).isSome = true := by
  intro p hp
  by_cases hps : p = s
  · subst hps
    rw [wiredB1_get_s]
    rfl
  · by_cases hpe : p = e
    · rw [hpe, wiredB1_get_e s e h]
      rfl
    · rw [wiredB1_get_mid s e p h hp hps hpe]
      rfl

/-- State after `delete_all_at s` on `wiredB`. -/
def stateB2 (s e : IVec2) : Circuit :=
  { tiles := clearedTiles e s (wiredB1 s e).tiles,
    components := ⟨[(1, ⟨.pin 1, e, .East⟩)], 2⟩,
    wires := ⟨[], 1⟩,
    simulation := ⟨2, [0], [false, false], [false, false], [[], []], [[], []],
      [0, 0]⟩ }

lemma clearedB_get_s (s e : IVec2) (h : AxisAligned s e) :
    tilesGet (clearedTiles e s (wiredB1 s e).tiles) s = some Tile.empty := by
  have hne := axisAligned_ne s e h
  have hsym := axisAligned_symm s e h
  unfold clearedTiles
  rw [tilesGet_fold_set _ _ _ (wireTiles_nodup e s hsym) s,
    if_pos (stop_mem_wireTiles e s hsym)]
  rw [wiredB1_get_s s e]
  rw [show (some (clearedPinTile (wireDirection e s).opposite 0)).getD Tile.empty
      = clearedPinTile (wireDirection e s).opposite 0 from rfl]
  rw [slotClearF_at_stop e s hne]
  rw [show (clearedPinTile (wireDirection e s).opposite 0).wires.setDir
      (wireDirection e s).opposite none = TileWires.empty from
      setDir_clear_single _ 0]
  exact congrArg some (update_crossover_none_empty false)

lemma clearedB_get_e (s e : IVec2) (h : AxisAligned s e) :
    tilesGet (clearedTiles e s (wiredB1 s e).tiles) e = some (pinTile 1) := by
  have hne2 : e ≠ s := fun hh => axisAligned_ne s e h hh.symm
  have hsym := axisAligned_symm s e h
  unfold clearedTiles
  rw [tilesGet_fold_set _ _ _ (wireTiles_nodup e s hsym) e,
    if_pos (start_mem_wireTiles e s)]
  rw [wiredB1_get_e s e h]
  rw [show (some (pinWireTile 1 (wireDirection e s) 0)).getD Tile.empty
      = pinWireTile 1 (wireDirection e s) 0 from rfl]
  rw [slotClearF_at_start e s hne2]
  rw [show (pinWireTile 1 (wireDirection e s) 0).wires.setDir
      (wireDirection e s) none = TileWires.empty from
      setDir_clear_single _ 0]
  exact congrArg some (update_crossover_component 1 false TileWires.empty)

lemma clearedB_get_mid (s e p : IVec2) (h : AxisAligned s e)
    (hp : p ∈ wireTiles e s) (hps : p ≠ s) (hpe : p ≠ e) :
    tilesGet (clearedTiles e s (wiredB1 s e).tiles) p = some Tile.empty := by
  have hsym := axisAligned_symm s e h
  unfold clearedTiles
  rw [tilesGet_fold_set _ _ _ (wireTiles_nodup e s hsym) p, if_pos hp]
  rw [wiredB1_get_mid s e p h hp hps hpe]
  rw [show (some (midWireTile (wireDirection e s) 0)).getD Tile.empty
      = midWireTile (wireDirection e s) 0 from rfl]
  rw [slotClearF_at_mid e s p hpe hps]
  rw [show ((midWireTile (wireDirection e s) 0).wires.setDir
      (wireDirection e s).opposite none).setDir (wireDirection e s) none
      = TileWires.empty from setDir_clear_both _ 0]
  exact congrArg some (update_crossover_none_empty false)

/-! ## The deletion steps: order (e, s) -/

lemma wiredB_pin0_has_neighbors (s e : IVec2) (h : AxisAligned s e) :
    (wiredB s e).has_neighbors (GraphNode.component 0 Direction.North)
      = true := by
  unfold Circuit.has_neighbors Circuit.neighbors
  dsimp only
  rw [show (wiredB s e).components.get? 0 =
    some ⟨ComponentData.pin 1, s, Direction.East⟩ from rfl]
  dsimp only [Component.get_type]
  rw [show Circuit.tile (wiredB s e) s =
    some (pinWireTile 0 (wireDirection e s).opposite 0) from wiredB_get_s s e h]
  dsimp only [Option.getD_some, pinWireTile]
  rw [pin_neighbor_list]
  rfl

lemma removeComponent0_wiredB (s e : IVec2) (h : AxisAligned s e) :
    (wiredB s e).removeComponentById 0 = wiredB1 s e := by
  unfold Circuit.removeComponentById Circuit.remove_component
  rw [show (wiredB s e).components.get? 0 =
    some ⟨ComponentData.pin 1, s, Direction.East⟩ from rfl]
  dsimp only
  rw [wiredB_pin0_has_neighbors s e h]
  simp only [Bool.not_true, Bool.false_eq_true, if_false]
  unfold Circuit.modifyTileP
  dsimp only
  rw [wiredB_get_s s e h]
  dsimp only
  rw [show Tile.update_crossover
      { pinWireTile 0 (wireDirection e s).opposite 0 with component := none } =
      clearedPinTile (wireDirection e s).opposite 0 from
      update_crossover_single (wireDirection e s).opposite 0 false]
  unfold Circuit.split_all
  dsimp only [Circuit.tile]
  rw [tilesGet_set_self]
  dsimp only [Option.getD_some]
  rw [dirs_filterMap_single]
  rfl

lemma delete_wiredB_s (s e : IVec2) (h : AxisAligned s e) :
    (wiredB s e).delete_all_at s =
      ((wiredB s e).removeComponentById 0).removeWireById 0 := by
  unfold Circuit.delete_all_at
  rw [wiredB_get_s s e h]
  dsimp only [pinWireTile]
  cases hd : wireDirection e s <;>
    simp [TileWires.setDir, TileWires.empty, Direction.opposite,
      Direction.rotate]

lemma wiredB1_wire0_has_neighbors (s e : IVec2) (h : AxisAligned s e) :
    (wiredB1 s e).has_neighbors (GraphNode.wire 0) = true := by
  unfold Circuit.has_neighbors Circuit.neighbors
  dsimp only
  rw [show (wiredB1 s e).wires.get? 0 =
    some (⟨e, s, .Pin, .Pin, 1⟩ : Wire) from rfl]
  dsimp only [Circuit.tile]
  rw [wiredB1_get_s s e, wiredB1_get_e s e h]
  rfl

lemma removeWire0_wiredB1 (s e : IVec2) (h : AxisAligned s e) :
    (wiredB1 s e).removeWireById 0 = stateB2 s e := by
  unfold Circuit.removeWireById
  rw [remove_wire_eval (wiredB1 s e) 0 ⟨e, s, .Pin, .Pin, 1⟩ rfl
    (wiredB1_wire0_has_neighbors s e h) (wiredB1_pres s e h)]
  dsimp only
  rw [clearedB_get_s s e h, clearedB_get_e s e h]
  rfl

lemma delete1B (s e : IVec2) (h : AxisAligned s e) :
    (wiredB s e).delete_all_at s = stateB2 s e := by
  rw [delete_wiredB_s s e h, removeComponent0_wiredB s e h,
    removeWire0_wiredB1 s e h]

/-- Final state of the round trip in swapped canonical order. -/
def finalB (s e : IVec2) : Circuit :=
  { tiles := tilesSet (stateB2 s e).tiles e Tile.empty,
    components := ⟨[], 2⟩,
    wires := ⟨[], 1⟩,
    simulation := ⟨2, [0, 1], [false, false], [false, false], [[], []],
      [[], []], [0, 0]⟩ }

lemma stateB2_pin1_no_neighbors (s e : IVec2) (h : AxisAligned s e) :
    (stateB2 s e).has_neighbors (GraphNode.component 1 Direction.North)
      = false := by
  unfold Circuit.has_neighbors Circuit.neighbors
  dsimp only
  rw [show (stateB2 s e).components.get? 1 =
    some ⟨ComponentData.pin 1, e, Direction.East⟩ from rfl]
  dsimp only [Component.get_type, Circuit.tile]
  rw [show tilesGet (stateB2 s e).tiles e = some (pinTile 1) from
    clearedB_get_e s e h]
  rfl

lemma removeComponent1_stateB2 (s e : IVec2) (h : AxisAligned s e) :
    (stateB2 s e).removeComponentById 1 = finalB s e := by
  unfold Circuit.removeComponentById Circuit.remove_component
  rw [show (stateB2 s e).components.get? 1 =
    some ⟨ComponentData.pin 1, e, Direction.East⟩ from rfl]
  dsimp only
  rw [stateB2_pin1_no_neighbors s e h]
  simp only [Bool.not_false, if_true]
  unfold Circuit.modifyTileP
  dsimp only
  rw [show tilesGet (stateB2 s e).tiles e = some (pinTile 1) from
    clearedB_get_e s e h]
  dsimp only
  rw [show Tile.update_crossover { pinTile 1 with component := none } =
    Tile.empty from update_crossover_none_empty false]
  unfold Circuit.split_all
  dsimp only [Circuit.tile]
  rw [tilesGet_set_self]
  rfl

lemma delete_stateB2_e (s e : IVec2) (h : AxisAligned s e) :
    (stateB2 s e).delete_all_at e = (stateB2 s e).removeComponentById 1 := by
  unfold Circuit.delete_all_at
  rw [show tilesGet (stateB2 s e).tiles e = some (pinTile 1) from
    clearedB_get_e s e h]
  rfl

lemma roundtripB (s e : IVec2) (h : AxisAligned s e) :
    ((wiredB s e).delete_all_at s).delete_all_at e = finalB s e := by
  rw [delete1B s e h, delete_stateB2_e s e h, removeComponent1_stateB2 s e h]

/-! ## Every tile of the final states is empty -/

lemma finalA_keys (s e : IVec2) (h : AxisAligned s e) :
    (tileKeys (finalA s e).tiles).Nodup ∧
      ∀ q ∈ tileKeys (finalA s e).tiles, q ∈ wireTiles s e := by
  have hne := axisAligned_ne s e h
  have hbase_nodup : (tileKeys [(s, pinTile 0), (e, pinTile 1)]).Nodup := by
    simp [tileKeys, hne]
  have h0 : (tileKeys (wiredTiles s e s e)).Nodup ∧
      ∀ q, q ∈ tileKeys (wiredTiles s e s e) →
        q ∈ tileKeys [(s, pinTile 0), (e, pinTile 1)] ∨ q ∈ wireTiles s e :=
    tileKeys_fold_set (wireTiles s e) _ _ hbase_nodup
  have h1k : tileKeys (wiredA1 s e).tiles = tileKeys (wiredTiles s e s e) := by
    show tileKeys (tilesSet (wiredTiles s e s e) s
      (clearedPinTile (wireDirection s e) 0)) = _
    refine tileKeys_tilesSet_present _ _ _ ?_
    rw [tilesGet_find?_isSome,
      show tilesGet (wiredTiles s e s e) s =
        some (pinWireTile 0 (wireDirection s e) 0) from wiredA_get_s s e h]
    rfl
  have h2 : (tileKeys (clearedTiles s e (wiredA1 s e).tiles)).Nodup ∧
      ∀ q, q ∈ tileKeys (clearedTiles s e (wiredA1 s e).tiles) →
        q ∈ tileKeys (wiredA1 s e).tiles ∨ q ∈ wireTiles s e :=
    tileKeys_fold_set (wireTiles s e) _ _ (h1k ▸ h0.1)
  have h3k : tileKeys (finalA s e).tiles =
      tileKeys (clearedTiles s e (wiredA1 s e).tiles) := by
    show tileKeys (tilesSet (clearedTiles s e (wiredA1 s e).tiles) e
      Tile.empty) = _
    refine tileKeys_tilesSet_present _ _ _ ?_
    rw [tilesGet_find?_isSome, clearedA_get_e s e h]
    rfl
  refine ⟨h3k ▸ h2.1, ?_⟩
  intro q hq
  rw [h3k] at hq
  rcases h2.2 q hq with hh | hh
  · rw [h1k] at hh
    rcases h0.2 q hh with hb | hb
    · simp only [tileKeys, List.map_cons, List.map_nil, List.mem_cons,
        List.not_mem_nil, or_false] at hb
      rcases hb with hb | hb
      · exact hb ▸ start_mem_wireTiles s e
      · exact hb ▸ stop_mem_wireTiles s e h
    · exact hb
  · exact hh

lemma finalA_tiles_empty (s e : IVec2) (h : AxisAligned s e) :
    ∀ pr ∈ (finalA s e).tiles, pr.2 = Tile.empty := by
  obtain ⟨hnd, hsub⟩ := finalA_keys s e h
  intro pr hpr
  have hkey : pr.1 ∈ tileKeys (finalA s e).tiles :=
    List.mem_map.2 ⟨pr, hpr, rfl⟩
  have hmemL := hsub pr.1 hkey
  have hget := tilesGet_of_mem _ hnd pr hpr
  have hval : tilesGet (finalA s e).tiles pr.1 = some Tile.empty := by
    by_cases hpe : pr.1 = e
    · show tilesGet (tilesSet (stateA2 s e).tiles e Tile.empty) pr.1 = _
      rw [hpe]
      exact tilesGet_set_self _ _ _
    · show tilesGet (tilesSet (stateA2 s e).tiles e Tile.empty) pr.1 = _
      rw [tilesGet_set_ne _ _ _ _ hpe]
      by_cases hps : pr.1 = s
      · show tilesGet (clearedTiles s e (wiredA1 s e).tiles) pr.1 = _
        rw [hps]
        exact clearedA_get_s s e h
      · exact clearedA_get_mid s e pr.1 h hmemL hps hpe
  rw [hget] at hval
  exact Option.some_injective _ hval

lemma finalB_keys (s e : IVec2) (h : AxisAligned s e) :
    (tileKeys (finalB s e).tiles).Nodup ∧
      ∀ q ∈ tileKeys (finalB s e).tiles, q ∈ wireTiles e s := by
  have hne := axisAligned_ne s e h
  have hsym := axisAligned_symm s e h
  have hbase_nodup : (tileKeys [(s, pinTile 0), (e, pinTile 1)]).Nodup := by
    simp [tileKeys, hne]
  have h0 : (tileKeys (wiredTiles s e e s)).Nodup ∧
      ∀ q, q ∈ tileKeys (wiredTiles s e e s) →
        q ∈ tileKeys [(s, pinTile 0), (e, pinTile 1)] ∨ q ∈ wireTiles e s :=
    tileKeys_fold_set (wireTiles e s) _ _ hbase_nodup
  have h1k : tileKeys (wiredB1 s e).tiles = tileKeys (wiredTiles s e e s) := by
    show tileKeys (tilesSet (wiredTiles s e e s) s
      (clearedPinTile (wireDirection e s).opposite 0)) = _
    refine tileKeys_tilesSet_present _ _ _ ?_
    rw [tilesGet_find?_isSome,
      show tilesGet (wiredTiles s e e s) s =
        some (pinWireTile 0 (wireDirection e s).opposite 0) from
        wiredB_get_s s e h]
    rfl
  have h2 : (tileKeys (clearedTiles e s (wiredB1 s e).tiles)).Nodup ∧
      ∀ q, q ∈ tileKeys (clearedTiles e s (wiredB1 s e).tiles) →
        q ∈ tileKeys (wiredB1 s e).tiles ∨ q ∈ wireTiles e s :=
    tileKeys_fold_set (wireTiles e s) _ _ (h1k ▸ h0.1)
  have h3k : tileKeys (finalB s e).tiles =
      tileKeys (clearedTiles e s (wiredB1 s e).tiles) := by
    show tileKeys (tilesSet (clearedTiles e s (wiredB1 s e).tiles) e
      Tile.empty) = _
    refine tileKeys_tilesSet_present _ _ _ ?_
    rw [tilesGet_find?_isSome, clearedB_get_e s e h]
    rfl
  refine ⟨h3k ▸ h2.1, ?_⟩
  intro q hq
  rw [h3k] at hq
  rcases h2.2 q hq with hh | hh
  · rw [h1k] at hh
    rcases h0.2 q hh with hb | hb
    · simp only [tileKeys, List.map_cons, List.map_nil, List.mem_cons,
        List.not_mem_nil, or_false] at hb
      rcases hb with hb | hb
      · exact hb ▸ stop_mem_wireTiles e s hsym
      · exact hb ▸ start_mem_wireTiles e s
    · exact hb
  · exact hh

lemma finalB_tiles_empty (s e : IVec2) (h : AxisAligned s e) :
    ∀ pr ∈ (finalB s e).tiles, pr.2 = Tile.empty := by
  obtain ⟨hnd, hsub⟩ := finalB_keys s e h
  intro pr hpr
  have hkey : pr.1 ∈ tileKeys (finalB s e).tiles :=
    List.mem_map.2 ⟨pr, hpr, rfl⟩
  have hmemL := hsub pr.1 hkey
  have hget := tilesGet_of_mem _ hnd pr hpr
  have hval : tilesGet (finalB s e).tiles pr.1 = some Tile.empty := by
    by_cases hpe : pr.1 = e
    · show tilesGet (tilesSet (stateB2 s e).tiles e Tile.empty) pr.1 = _
      rw [hpe]
      exact tilesGet_set_self _ _ _
    · show tilesGet (tilesSet (stateB2 s e).tiles e Tile.empty) pr.1 = _
      rw [tilesGet_set_ne _ _ _ _ hpe]
      by_cases hps : pr.1 = s
      · show tilesGet (clearedTiles e s (wiredB1 s e).tiles) pr.1 = _
        rw [hps]
        exact clearedB_get_s s e h
      · exact clearedB_get_mid s e pr.1 h hmemL hps hpe
  rw [hget] at hval
  exact Option.some_injective _ hval

/-- C3: starting from the empty circuit, placing a wire on an
axis-aligned non-zero segment and then deleting everything at each
endpoint leaves no components, no wires, no wire references in any tile
slot, and every cluster allocated during the sequence freed. -/
theorem place_wire_delete_all_roundtrip (s e : IVec2) (h : AxisAligned s e) :
    (Circuit.new.place_wire s e).1 = true ∧
    (((Circuit.new.place_wire s e).2.delete_all_at s).delete_all_at
        e).components.items = [] ∧
    (((Circuit.new.place_wire s e).2.delete_all_at s).delete_all_at
        e).wires.items = [] ∧
    (∀ pr ∈ (((Circuit.new.place_wire s e).2.delete_all_at s).delete_all_at
        e).tiles, pr.2.component = none ∧ pr.2.wires = TileWires.empty) ∧
    (∀ id < (((Circuit.new.place_wire s e).2.delete_all_at s).delete_all_at
        e).simulation.num_clusters,
      id ∈ (((Circuit.new.place_wire s e).2.delete_all_at s).delete_all_at
        e).simulation.free_clusters) := by
  rw [place_wire_new s e h]
  unfold Circuit.insert_wire
  by_cases hgt : IVec2.arrGt s e = true
  · rw [if_pos hgt, insert_canonical_es s e h]
    dsimp only
    rw [roundtripB s e h]
    refine ⟨rfl, rfl, rfl, ?_, ?_⟩
    · intro pr hpr
      rw [finalB_tiles_empty s e h pr hpr]
      exact ⟨rfl, rfl⟩
    · intro id hid
      rw [show (finalB s e).simulation.free_clusters = [0, 1] from rfl]
      rw [show (finalB s e).simulation.num_clusters = 2 from rfl] at hid
      have h01 : id = 0 ∨ id = 1 := by omega
      rcases h01 with hh | hh <;> rw [hh] <;> simp
  · rw [if_neg hgt, insert_canonical_se s e h]
    dsimp only
    rw [roundtripA s e h]
    refine ⟨rfl, rfl, rfl, ?_, ?_⟩
    · intro pr hpr
      rw [finalA_tiles_empty s e h pr hpr]
      exact ⟨rfl, rfl⟩
    · intro id hid
      rw [show (finalA s e).simulation.free_clusters = [1, 0] from rfl]
      rw [show (finalA s e).simulation.num_clusters = 2 from rfl] at hid
      have h01 : id = 0 ∨ id = 1 := by omega
      rcases h01 with hh | hh <;> rw [hh] <;> simp

/-- C3 witness: the round trip on the concrete segment
`(0,0) – (3,0)`. -/
theorem place_wire_delete_all_roundtrip_witness :
    AxisAligned ⟨0, 0⟩ ⟨3, 0⟩ ∧
    ((Circuit.new.place_wire ⟨0, 0⟩ ⟨3, 0⟩).1 = true ∧
     (((Circuit.new.place_wire ⟨0, 0⟩ ⟨3, 0⟩).2.delete_all_at
        ⟨0, 0⟩).delete_all_at ⟨3, 0⟩).components.items = [] ∧
     (((Circuit.new.place_wire ⟨0, 0⟩ ⟨3, 0⟩).2.delete_all_at
        ⟨0, 0⟩).delete_all_at ⟨3, 0⟩).wires.items = [] ∧
     (∀ pr ∈ (((Circuit.new.place_wire ⟨0, 0⟩ ⟨3, 0⟩).2.delete_all_at
        ⟨0, 0⟩).delete_all_at ⟨3, 0⟩).tiles,
        pr.2.component = none ∧ pr.2.wires = TileWires.empty) ∧
     (∀ id < (((Circuit.new.place_wire ⟨0, 0⟩ ⟨3, 0⟩).2.delete_all_at
        ⟨0, 0⟩).delete_all_at ⟨3, 0⟩).simulation.num_clusters,
       id ∈ (((Circuit.new.place_wire ⟨0, 0⟩ ⟨3, 0⟩).2.delete_all_at
        ⟨0, 0⟩).delete_all_at ⟨3, 0⟩).simulation.free_clusters)) :=
  ⟨by decide, place_wire_delete_all_roundtrip ⟨0, 0⟩ ⟨3, 0⟩ (by decide)⟩

end FlipFlop
